import Mathlib

/-!
Verification development for the workFlow repository's DAG execution engine
(`backend/services/workflow_engine.py`).

Shallow embedding conventions:
* A pandas `DataFrame` is a `Table`: a list of column names plus positional
  rows (lists of `Value`).  Cell values are dynamically typed, as in pandas.
* Numeric cells are modeled as exact integers (`Value.num : Int`).  The
  source works with Python/NumPy floats; floating-point rounding itself is
  out of scope of this embedding, and none of the verified claims depends on
  fractional values.
* Library calls whose behaviour lives outside this repository (reading an
  Excel/CSV file from disk, the HTTPS chat-completion call, regular
  expression matching, calendar arithmetic of `pd.to_datetime`) are supplied
  by an `Env` of oracle functions, mirroring their call signatures.
* Python `raise` becomes `Except.error`; a node function that can raise
  returns `Except String _`.
* Python dicts keyed by node id become association lists updated in place
  (`dset`), preserving insertion order exactly like CPython dicts.
* The pandas expression strings passed to `df.query` / `df.eval` are
  embedded as an `Expr` AST (the parse step is out of scope); evaluation is
  per row, matching the vectorized evaluation of the source row-wise.
-/

/-- Value is one cell of a table: number, text, boolean or null (NaN). -/
inductive Value where
  | num (n : Int)
  | str (s : String)
  | bool (b : Bool)
  | null
deriving DecidableEq, Repr

/-- valueToStr mirrors Python `str()` as used by `astype(str)`; `str(nan)`
is `"nan"`.  The exact rendering of numbers is irrelevant to every theorem
below (it is only ever compared with itself). -/
def valueToStr : Value → String
  | .num n => toString n
  | .str s => s
  | .bool b => if b then "True" else "False"
  | .null => "nan"

/-- truthy mirrors Python truthiness of a cell (NaN is truthy in Python,
but pandas boolean filters only ever see `bool` cells; numbers count as
non-zero, strings as non-empty). -/
def truthy : Value → Bool
  | .num n => n ≠ 0
  | .str s => s ≠ ""
  | .bool b => b
  | .null => true

/-- Table is the in-memory tabular value: ordered column names and
positional rows.  Rows are uniform in length with the columns. -/
structure Table where
  cols : List String
  rows : List (List Value)
deriving DecidableEq, Repr

instance : Inhabited Table := ⟨⟨[], []⟩⟩

/-- colIdx is the position of a column name, `none` when absent. -/
def Table.colIdx (t : Table) (c : String) : Option Nat :=
  t.cols.findIdx? (· = c)

/-- getCell reads the cell of a row (of table `t`) under a column name;
a missing column reads as null (callers check membership first). -/
def getCell (t : Table) (r : List Value) (c : String) : Value :=
  match t.colIdx c with
  | some i => r.getD i .null
  | none => .null

/-- colVals is the column of values under a name, like `df[c]`. -/
def colVals (t : Table) (c : String) : List Value :=
  t.rows.map (fun r => getCell t r c)

/-- setColTable mirrors `df[c] = vals`: replace the column in place when the
name exists, otherwise append it on the right. -/
def setColTable (t : Table) (c : String) (vals : List Value) : Table :=
  match t.colIdx c with
  | some i => { cols := t.cols, rows := (t.rows.zip vals).map (fun p => p.1.set i p.2) }
  | none => { cols := t.cols ++ [c], rows := (t.rows.zip vals).map (fun p => p.1 ++ [p.2]) }

/-- projectTable mirrors `df[cs]`: keep the named columns in the given
order (callers guarantee the names exist). -/
def projectTable (t : Table) (cs : List String) : Table :=
  { cols := cs, rows := t.rows.map (fun r => cs.map (fun c => getCell t r c)) }

/-- dropColTable mirrors `df.drop(columns=[c])`. -/
def dropColTable (t : Table) (c : String) : Table :=
  projectTable t (t.cols.filter (· ≠ c))

/-- dget is Python dict lookup on an insertion-ordered association list. -/
def dget {α : Type} (d : List (String × α)) (k : String) : Option α :=
  match d with
  | [] => none
  | (k', v) :: d' => if k' = k then some v else dget d' k

/-- dset is Python dict assignment: overwrite in place, else append. -/
def dset {α : Type} (d : List (String × α)) (k : String) (v : α) : List (String × α) :=
  match d with
  | [] => [(k, v)]
  | (k', v') :: d' => if k' = k then (k', v) :: d' else (k', v') :: dset d' k v

/-- pyOrStr mirrors Python `a or b` on optional strings (empty string is
falsy). -/
def pyOrStr (a b : Option String) : Option String :=
  match a with
  | some s => if s = "" then b else some s
  | none => b

/-- pyOrList mirrors Python `a or b` on optional lists (empty list is
falsy). -/
def pyOrList (a b : Option (List String)) : Option (List String) :=
  match a with
  | some l => if l = [] then b else some l
  | none => b

/-- Expr is the closed expression language of `df.query` / `df.eval`
(column identifiers, literals, arithmetic, comparison, boolean operators). -/
inductive Expr where
  | col (c : String)
  | lit (v : Value)
  | add (a b : Expr)
  | sub (a b : Expr)
  | mul (a b : Expr)
  | lt (a b : Expr)
  | le (a b : Expr)
  | gt (a b : Expr)
  | ge (a b : Expr)
  | eqE (a b : Expr)
  | neE (a b : Expr)
  | andE (a b : Expr)
  | orE (a b : Expr)
  | notE (a : Expr)
deriving DecidableEq, Repr

/-- numBin evaluates an arithmetic operator; non-numeric operands fail the
whole expression (pandas raises), except string concatenation for `+`. -/
def numBin (op : String) (a b : Value) : Option Value :=
  match a, b with
  | .num x, .num y =>
      if op = "+" then some (.num (x + y))
      else if op = "-" then some (.num (x - y))
      else if op = "*" then some (.num (x * y))
      else none
  | .str x, .str y => if op = "+" then some (.str (x ++ y)) else none
  | _, _ => none

/-- cmpBin evaluates a comparison; mixed numeric and string comparison
fails (pandas raises a TypeError). -/
def cmpBin (op : String) (a b : Value) : Option Value :=
  match a, b with
  | .num x, .num y =>
      if op = "<" then some (.bool (x < y))
      else if op = "<=" then some (.bool (x ≤ y))
      else if op = ">" then some (.bool (x > y))
      else if op = ">=" then some (.bool (x ≥ y))
      else none
  | .str x, .str y =>
      if op = "<" then some (.bool (decide (x < y)))
      else if op = "<=" then some (.bool (decide (x ≤ y)))
      else if op = ">" then some (.bool (decide (x > y)))
      else if op = ">=" then some (.bool (decide (x ≥ y)))
      else none
  | _, _ => none

/-- evalExpr evaluates an expression over one row of table `t`; `none`
means the evaluation raises in pandas (unknown column, type error). -/
def evalExpr (t : Table) (r : List Value) : Expr → Option Value
  | .col c => (t.colIdx c).map (fun i => r.getD i .null)
  | .lit v => some v
  | .add a b => do numBin "+" (← evalExpr t r a) (← evalExpr t r b)
  | .sub a b => do numBin "-" (← evalExpr t r a) (← evalExpr t r b)
  | .mul a b => do numBin "*" (← evalExpr t r a) (← evalExpr t r b)
  | .lt a b => do cmpBin "<" (← evalExpr t r a) (← evalExpr t r b)
  | .le a b => do cmpBin "<=" (← evalExpr t r a) (← evalExpr t r b)
  | .gt a b => do cmpBin ">" (← evalExpr t r a) (← evalExpr t r b)
  | .ge a b => do cmpBin ">=" (← evalExpr t r a) (← evalExpr t r b)
  | .eqE a b => do pure (.bool ((← evalExpr t r a) = (← evalExpr t r b)))
  | .neE a b => do pure (.bool (¬ ((← evalExpr t r a) = (← evalExpr t r b)) : Bool))
  | .orE a b => do pure (.bool (truthy (← evalExpr t r a) || truthy (← evalExpr t r b)))
  | .andE a b => do pure (.bool (truthy (← evalExpr t r a) && truthy (← evalExpr t r b)))
  | .notE a => do pure (.bool (! truthy (← evalExpr t r a)))

/-- CalcSpec is one entry of `transform.calculations`. -/
structure CalcSpec where
  target : String
  formula : Expr
deriving Repr

/-- AggSpec is one entry of `group_aggregate.aggregations`. -/
structure AggSpec where
  column : String
  func : String
  aliasName : Option String
deriving Repr

/-- ConvSpec is one entry of `type_convert.conversions`. -/
structure ConvSpec where
  column : String
  dtype : String
deriving Repr

/-- Config is the per-node config dictionary, as one record whose fields
default to the absent-key value used by the corresponding `config.get`
call in the source.  `pivot_columns` stands for the `columns` key of the
pivot node (same JSON key as `fill_na`'s list-valued `columns`; a typed
record needs two fields).  `row_limit` appears in graph documents per the
spec; the engine source never reads it. -/
structure Config where
  file_id : Option String := none
  sheet_name : Option String := none
  header_row : Nat := 1
  skip_rows : Nat := 0
  delimiter : String := ","
  encoding : String := "utf-8"
  filter_code : Option Expr := none
  drop_columns : List String := []
  calculations : List CalcSpec := []
  rename_map : List (String × String) := []
  selected_columns : List String := []
  sort_by : Option String := none
  sort_order : String := "asc"
  conversions : List ConvSpec := []
  strategy : String := "drop"
  columns : List String := []
  fill_value : Option Value := none
  subset : List String := []
  keep : String := "first"
  column : Option String := none
  operation : Option String := none
  pattern : String := ""
  replacement : String := ""
  extract : List String := []
  offset : String := ""
  group_by : List String := []
  aggregations : List AggSpec := []
  index : List String := []
  pivot_columns : Option String := none
  values : Option String := none
  aggfunc : String := "sum"
  id_vars : List String := []
  value_vars : List String := []
  var_name : String := "variable"
  value_name : String := "value"
  how : String := "inner"
  left_on : Option (List String) := none
  right_on : Option (List String) := none
  onKeys : Option (List String) := none
  join : String := "outer"
  ignore_index : Bool := true
  left_key : Option String := none
  right_key : Option String := none
  lookup_key : Option String := none
  columns_to_get : List String := []
  return_columns : List String := []
  compare_columns : List String := []
  join_keys : Option (List String) := none
  detail_key : Option (List String) := none
  left_column : Option String := none
  right_column : Option String := none
  detail_amount : Option String := none
  summary_amount : Option String := none
  output_mode : String := "diff_only"
  tolerance : Int := 0
  python_code : Option String := none
  prompt : String := ""
  target_column : String := "AI_Result"
  row_limit : Option Nat := none
  filename : Option String := none
deriving Repr

instance : Inhabited Config := ⟨{}⟩

deriving instance DecidableEq for Except

/-- Heap models the store of live DataFrame objects during one run; used by
the aliasing/frame analysis of the operators (claim about non-mutation of
inputs).  Addresses are indices. -/
abbrev Heap := List Table

/-- Env bundles every effect the engine consumes from outside this
repository: the file resolver plus `pd.read_excel` / `pd.read_csv`
(collapsed into one oracle keyed by the mapped file id and the node
config), the chat-completion HTTPS call, `exec` of a code node, the regex
engine, `pd.to_datetime` calendar arithmetic, `datetime.now()` timestamps
(as a stream indexed by the number of log lines already emitted) and
`uuid4` (as a stream indexed by the number of files already saved). -/
structure Env where
  readExcel : String → Config → Option Table
  readCsv : String → Config → Option Table
  aiCall : String → Except String String
  codeExec : String → List Table → Except String Table
  codeExecH : String → List Nat → Heap → Heap × Except String Nat
  regexReplace : String → String → String → String
  regexExtract : String → String → Option String
  toDatetime : Value → Value
  datePart : String → Value → Value
  dateShift : Int → String → Value → Value
  times : Nat → String
  uuids : Nat → String

/-- coerceStrCol mirrors `df[c] = df[c].astype(str)`. -/
def coerceStrCol (t : Table) (c : String) : Table :=
  setColTable t c ((colVals t c).map (fun v => .str (valueToStr v)))

/-- executeSource mirrors `_execute_source`: map the file id through
`file_mapping`, resolve it against the upload directory (prefix match and
sheet reading collapsed into the `readExcel` oracle), else
`FileNotFoundError`. -/
def executeSource (env : Env) (cfg : Config) (fm : List (String × String)) : Except String Table :=
  match cfg.file_id with
  | none => .error "找不到文件: None"
  | some fid =>
      let mapped := (dget fm fid).getD fid
      match env.readExcel mapped cfg with
      | some t => .ok t
      | none => .error ("找不到文件: " ++ fid)

/-- executeSourceCsv mirrors `_execute_source_csv`. -/
def executeSourceCsv (env : Env) (cfg : Config) (fm : List (String × String)) : Except String Table :=
  match cfg.file_id with
  | none => .error "找不到文件: None"
  | some fid =>
      let mapped := (dget fm fid).getD fid
      match env.readCsv mapped cfg with
      | some t => .ok t
      | none => .error ("找不到文件: " ++ fid)

/-- filterStep mirrors the `df.query(filter_expr)` stage of
`_execute_transform`: absent or empty filter is a no-op, a failing
expression raises (unknown column / type error), otherwise rows whose
predicate is non-truthy are dropped. -/
def filterStep (cfg : Config) (t : Table) : Except String Table :=
  match cfg.filter_code with
  | none => .ok t
  | some e =>
      match t.rows.mapM (fun r => evalExpr t r e) with
      | none => .error "筛选表达式执行失败"
      | some flags =>
          .ok { cols := t.cols,
                rows := (t.rows.zip flags).filterMap
                  (fun p => if truthy p.2 then some p.1 else none) }

/-- dropStep mirrors the `df.drop(columns=..., errors='ignore')` stage:
only names present are dropped, missing names are silently ignored. -/
def dropStep (cfg : Config) (t : Table) : Table :=
  if cfg.drop_columns = [] then t
  else projectTable t (t.cols.filter (fun c => c ∉ cfg.drop_columns))

/-- calcStep1 mirrors one `calculations` entry: `df[target] = df.eval(f)`
inside `try/except: pass`, so an unresolvable formula leaves the table
unchanged. -/
def calcStep1 (t : Table) (c : CalcSpec) : Table :=
  if c.target = "" then t
  else
    match t.rows.mapM (fun r => evalExpr t r c.formula) with
    | none => t
    | some vals => setColTable t c.target vals

/-- calcStep folds all calculation entries in order. -/
def calcStep (cfg : Config) (t : Table) : Table :=
  cfg.calculations.foldl calcStep1 t

/-- renameStep mirrors `df.rename(columns=rename_map)`. -/
def renameStep (cfg : Config) (t : Table) : Table :=
  if cfg.rename_map = [] then t
  else { cols := t.cols.map (fun c => (dget cfg.rename_map c).getD c), rows := t.rows }

/-- selectStep mirrors the `selected_columns` stage: missing names are
silently dropped, and — exactly as in the source — when none of the
selected names exists (`cols_to_keep` empty) the projection is skipped
entirely and all columns are kept. -/
def selectStep (cfg : Config) (t : Table) : Table :=
  if cfg.selected_columns = [] then t
  else
    let keep := cfg.selected_columns.filter (· ∈ t.cols)
    if keep = [] then t else projectTable t keep

/-- sortLe orders two cells for `sort_values` (nulls last in either
direction, numbers and strings by their own order; the source's pandas
quicksort is replaced by a stable merge sort, a difference only in the
relative order of equal keys, which no theorem touches). -/
def sortLe (asc : Bool) (a b : Value) : Bool :=
  match a, b with
  | .null, _ => false
  | _, .null => true
  | .num x, .num y => if asc then decide (x ≤ y) else decide (y ≤ x)
  | .str x, .str y => if asc then decide (x ≤ y) else decide (y ≤ x)
  | .bool x, .bool y => if asc then !x || y else !y || x
  | _, _ => true

/-- sortStep mirrors the `sort_by` stage: sorting happens only when
`sort_by` is truthy AND names an existing column; otherwise the stage is
silently skipped (`if sort_by and sort_by in df.columns`). -/
def sortStep (cfg : Config) (t : Table) : Table :=
  match cfg.sort_by with
  | none => t
  | some c =>
      if c = "" then t
      else if c ∈ t.cols then
        { cols := t.cols,
          rows := t.rows.mergeSort
            (fun r1 r2 => sortLe (cfg.sort_order = "asc") (getCell t r1 c) (getCell t r2 c)) }
      else t

/-- executeTransform mirrors `_execute_transform`: filter, drop columns,
calculations, rename, select columns, sort — in that order. -/
def executeTransform (t0 : Table) (cfg : Config) : Except String Table := do
  let t ← filterStep cfg t0
  let t := dropStep cfg t
  let t := calcStep cfg t
  let t := renameStep cfg t
  let t := selectStep cfg t
  pure (sortStep cfg t)

/-- toNumCell mirrors `pd.to_numeric(errors='coerce')` on one cell
(uncoercible cells become null; fractional text is outside the integer
model and also coerces to null here). -/
def toNumCell : Value → Value
  | .num n => .num n
  | .str s => match s.toInt? with | some n => .num n | none => .null
  | .bool b => .num (if b then 1 else 0)
  | .null => .null

/-- truthyPy mirrors Python `bool()` as used by `astype(bool)` — note
`bool(nan)` is `True`. -/
def truthyPy : Value → Bool
  | .num n => n ≠ 0
  | .str s => s ≠ ""
  | .bool b => b
  | .null => true

/-- convertOne mirrors one `conversions` entry of `_execute_type_convert`
(each wrapped in `try/except: pass`; with integer-modeled numbers the
`int` and `float` branches coincide, as the `Int64` cast of an integral
column is the identity). -/
def convertOne (env : Env) (t : Table) (conv : ConvSpec) : Table :=
  if conv.column = "" ∨ conv.dtype = "" ∨ conv.column ∉ t.cols then t
  else
    let vs := colVals t conv.column
    if conv.dtype = "int" then setColTable t conv.column (vs.map toNumCell)
    else if conv.dtype = "float" then setColTable t conv.column (vs.map toNumCell)
    else if conv.dtype = "str" then setColTable t conv.column (vs.map (fun v => .str (valueToStr v)))
    else if conv.dtype = "datetime" then setColTable t conv.column (vs.map env.toDatetime)
    else if conv.dtype = "bool" then setColTable t conv.column (vs.map (fun v => .bool (truthyPy v)))
    else t

/-- executeTypeConvert mirrors `_execute_type_convert`. -/
def executeTypeConvert (env : Env) (t : Table) (cfg : Config) : Table :=
  cfg.conversions.foldl (convertOne env) t

/-- isNumericCol decides whether a column is of a numeric dtype (all cells
numbers or nulls), the model of the `dtype in ['int64','float64']` test. -/
def isNumericCol (vs : List Value) : Bool :=
  vs.all (fun v => match v with | .num _ => true | .null => true | _ => false)

/-- ffillCol carries the last non-null value forward. -/
def ffillCol (vs : List Value) : List Value :=
  (vs.foldl (fun p v =>
      match v with
      | .null => (p.1 ++ [p.2.getD Value.null], p.2)
      | w => (p.1 ++ [w], some w)) (([] : List Value), (none : Option Value))).1

/-- sumNums sums the numeric cells of a column, skipping nulls and
non-numbers exactly as pandas `sum` skips NaN. -/
def sumNums (vs : List Value) : Int :=
  vs.foldl (fun a v => match v with | .num n => a + n | _ => a) 0

/-- countNonNull counts non-null cells (pandas `count`). -/
def countNonNull (vs : List Value) : Int :=
  vs.foldl (fun a v => match v with | .null => a | _ => a + 1) 0

/-- executeFillNa mirrors `_execute_fill_na`; an unknown strategy falls
through all branches and returns the table unchanged.  Selecting missing
target columns raises (pandas KeyError).  The `mean`/`median` integer
division stands in for float division (no claim touches it). -/
def executeFillNa (t : Table) (cfg : Config) : Except String Table :=
  let targets := if cfg.columns = [] then t.cols else cfg.columns
  if cfg.strategy = "drop" then
    if targets.all (· ∈ t.cols) then
      .ok { cols := t.cols,
            rows := t.rows.filter (fun r => targets.all (fun c => getCell t r c ≠ .null)) }
    else .error "dropna: 列不存在"
  else if cfg.strategy = "fill_value" then
    if targets.all (· ∈ t.cols) then
      match cfg.fill_value with
      | none => .error "fillna: 未指定填充值"
      | some fv =>
          .ok (targets.foldl (fun t' c =>
            setColTable t' c ((colVals t' c).map (fun v => if v = .null then fv else v))) t)
    else .error "fillna: 列不存在"
  else if cfg.strategy = "ffill" then
    if targets.all (· ∈ t.cols) then
      .ok (targets.foldl (fun t' c => setColTable t' c (ffillCol (colVals t' c))) t)
    else .error "fillna: 列不存在"
  else if cfg.strategy = "bfill" then
    if targets.all (· ∈ t.cols) then
      .ok (targets.foldl (fun t' c => setColTable t' c ((ffillCol (colVals t' c).reverse).reverse)) t)
    else .error "fillna: 列不存在"
  else if cfg.strategy = "mean" then
    if targets.all (· ∈ t.cols) then
      .ok (targets.foldl (fun t' c =>
        let vs := colVals t' c
        if isNumericCol vs ∧ countNonNull vs ≠ 0 then
          let m := Value.num (sumNums vs / countNonNull vs)
          setColTable t' c (vs.map (fun v => if v = .null then m else v))
        else t') t)
    else .error "fillna: 列不存在"
  else if cfg.strategy = "median" then
    if targets.all (· ∈ t.cols) then
      .ok (targets.foldl (fun t' c =>
        let vs := colVals t' c
        let nums := (vs.filterMap (fun v => match v with | .num n => some n | _ => none)).mergeSort (fun a b => decide (a ≤ b))
        if isNumericCol vs ∧ nums.length ≠ 0 then
          let m := Value.num (if nums.length % 2 = 1 then nums.getD (nums.length / 2) 0
                              else (nums.getD (nums.length / 2 - 1) 0 + nums.getD (nums.length / 2) 0) / 2)
          setColTable t' c (vs.map (fun v => if v = .null then m else v))
        else t') t)
    else .error "fillna: 列不存在"
  else .ok t

/-- executeDeduplicate mirrors `_execute_deduplicate`: `keep` is `first`,
`last` or the literal string `"false"` (canonicalized to pandas `False` =
drop every duplicate); any other value raises in `drop_duplicates`.  A
missing subset column raises (KeyError). -/
def executeDeduplicate (t : Table) (cfg : Config) : Except String Table :=
  let subsetCols := if cfg.subset = [] then t.cols else cfg.subset
  if ¬ subsetCols.all (· ∈ t.cols) then .error "drop_duplicates: 列不存在"
  else
    let key := fun (r : List Value) => subsetCols.map (getCell t r)
    if cfg.keep = "first" then
      .ok { cols := t.cols,
            rows := (t.rows.enum.filter (fun p =>
              ¬ (t.rows.take p.1).any (fun s => key s = key p.2))).map (·.2) }
    else if cfg.keep = "last" then
      .ok { cols := t.cols,
            rows := (t.rows.enum.filter (fun p =>
              ¬ (t.rows.drop (p.1 + 1)).any (fun s => key s = key p.2))).map (·.2) }
    else if cfg.keep = "false" then
      .ok { cols := t.cols,
            rows := t.rows.filter (fun r =>
              (t.rows.filter (fun s => key s = key r)).length = 1) }
    else .error "drop_duplicates: keep参数无效"

/-- executeTextProcess mirrors `_execute_text_process`; a missing or empty
column name returns the table unchanged; regex behaviour is the
`regexReplace` / `regexExtract` oracle. -/
def executeTextProcess (env : Env) (t : Table) (cfg : Config) : Table :=
  match cfg.column with
  | none => t
  | some col =>
      if col = "" ∨ col ∉ t.cols then t
      else
        let vs := colVals t col
        match cfg.operation with
        | some "trim" => setColTable t col (vs.map (fun v => .str (valueToStr v).trim))
        | some "lower" => setColTable t col (vs.map (fun v => .str (valueToStr v).toLower))
        | some "upper" => setColTable t col (vs.map (fun v => .str (valueToStr v).toUpper))
        | some "replace" =>
            setColTable t col (vs.map (fun v => .str (env.regexReplace cfg.pattern cfg.replacement (valueToStr v))))
        | some "extract" =>
            setColTable t (col ++ "_extracted") (vs.map (fun v =>
              match env.regexExtract cfg.pattern (valueToStr v) with
              | some s => Value.str s
              | none => Value.null))
        | _ => t

/-- parseOffsetNum reads the leading `[+-]?\d+` of the offset string and
returns it with the rest, mirroring the anchored `re.match` of
`_execute_date_process`. -/
def parseOffsetNum (s : String) : Option (Int × List Char) :=
  let cs := s.toList
  let p := match cs with
           | '+' :: rest => some (1, rest)
           | '-' :: rest => some (-1, rest)
           | rest => some (1, rest)
  match p with
  | some (sign, rest) =>
      let digits := rest.takeWhile Char.isDigit
      if digits = [] then none
      else some (sign * (String.mk digits).toNat!, rest.drop digits.length)
  | none => none

/-- parseOffset recognizes `([+-]?\d+)([dMy])` as a prefix of the offset
string (like `re.match`, which anchors only at the start). -/
def parseOffset (s : String) : Option (Int × String) :=
  match parseOffsetNum s with
  | some (n, 'd' :: _) => some (n, "d")
  | some (n, 'M' :: _) => some (n, "M")
  | some (n, 'y' :: _) => some (n, "y")
  | _ => none

/-- executeDateProcess mirrors `_execute_date_process`: coerce the column
via `pd.to_datetime(errors='coerce')`, emit the requested component
columns (weekday is `dayofweek + 1`), then optionally shift the original
column.  Calendar arithmetic is the date oracle of `Env`. -/
def executeDateProcess (env : Env) (t0 : Table) (cfg : Config) : Table :=
  match cfg.column with
  | none => t0
  | some col =>
      if col = "" ∨ col ∉ t0.cols then t0
      else
        let t := setColTable t0 col ((colVals t0 col).map env.toDatetime)
        let t := cfg.extract.foldl (fun t' ext =>
          if ext = "year" then
            setColTable t' (col ++ "_年") ((colVals t' col).map (env.datePart "year"))
          else if ext = "month" then
            setColTable t' (col ++ "_月") ((colVals t' col).map (env.datePart "month"))
          else if ext = "day" then
            setColTable t' (col ++ "_日") ((colVals t' col).map (env.datePart "day"))
          else if ext = "weekday" then
            setColTable t' (col ++ "_周几") ((colVals t' col).map (fun v =>
              match env.datePart "dayofweek" v with
              | .num n => .num (n + 1)
              | _ => .null))
          else if ext = "quarter" then
            setColTable t' (col ++ "_季度") ((colVals t' col).map (env.datePart "quarter"))
          else t') t
        if cfg.offset = "" then t
        else
          match parseOffset cfg.offset with
          | some (n, u) => setColTable t col ((colVals t col).map (env.dateShift n u))
          | none => t

/-- validAggFun lists the aggregate names `.agg` accepts here; anything
else raises. -/
def validAggFun (f : String) : Bool :=
  f = "sum" ∨ f = "count" ∨ f = "mean" ∨ f = "min" ∨ f = "max" ∨ f = "first" ∨ f = "last"

/-- aggFun applies one aggregate to the cells of a group (nulls skipped,
as pandas does; `mean` uses the integer division of the model). -/
def aggFun (f : String) (vs : List Value) : Value :=
  let nn := vs.filter (· ≠ Value.null)
  if f = "sum" then .num (sumNums vs)
  else if f = "count" then .num (countNonNull vs)
  else if f = "mean" then (if countNonNull vs = 0 then .null else .num (sumNums vs / countNonNull vs))
  else if f = "min" then (nn.mergeSort (sortLe true)).headD .null
  else if f = "max" then (nn.mergeSort (sortLe true)).getLastD .null
  else if f = "first" then nn.headD .null
  else if f = "last" then nn.getLastD .null
  else .null

/-- groupKeysList lists the distinct key tuples of the rows in
first-occurrence order; a tuple with a missing (NaN) component is dropped
entirely, as `groupby` does under its default `dropna=True`.  (pandas also
sorts group keys; that difference is only the row order of the grouped
output, which no theorem below depends on). -/
def groupKeysList (t : Table) (ks : List String) : List (List Value) :=
  t.rows.foldl (fun acc r =>
    let k := ks.map (getCell t r)
    if Value.null ∈ k then acc
    else if k ∈ acc then acc else acc ++ [k]) []

/-- groupRows selects the rows of one key group. -/
def groupRows (t : Table) (ks : List String) (k : List Value) : List (List Value) :=
  t.rows.filter (fun r => ks.map (getCell t r) = k)

/-- executeGroupAggregate mirrors `_execute_group_aggregate`: the
`agg_dict`/`rename_dict` are Python dicts built per aggregation entry
(entries whose column is falsy or absent are skipped); with an empty
`agg_dict` the fallback is `groupby(...).sum()` over every non-key column
(numeric cells summed, as pandas `sum` skips non-numbers). -/
def executeGroupAggregate (t : Table) (cfg : Config) : Except String Table :=
  if cfg.group_by = [] then .ok t
  else if ¬ cfg.group_by.all (· ∈ t.cols) then .error "groupby: 分组列不存在"
  else
    let dicts := cfg.aggregations.foldl (fun (p : List (String × String) × List (String × String)) a =>
        if a.column ≠ "" ∧ a.column ∈ t.cols then
          (dset p.1 a.column a.func, dset p.2 a.column (a.aliasName.getD (a.column ++ "_" ++ a.func)))
        else p) ([], [])
    let aggDict := dicts.1
    let renameDict := dicts.2
    if aggDict ≠ [] then
      if ¬ (aggDict.all (fun p => validAggFun p.2)) then .error "agg: 聚合函数无效"
      else
        .ok { cols := cfg.group_by ++ aggDict.map (fun p => (dget renameDict p.1).getD p.1),
              rows := (groupKeysList t cfg.group_by).map (fun k =>
                let g := groupRows t cfg.group_by k
                k ++ aggDict.map (fun p => aggFun p.2 (g.map (fun r => getCell t r p.1)))) }
    else
      let others := t.cols.filter (fun c => c ∉ cfg.group_by)
      .ok { cols := cfg.group_by ++ others,
            rows := (groupKeysList t cfg.group_by).map (fun k =>
              let g := groupRows t cfg.group_by k
              k ++ others.map (fun c => Value.num (sumNums (g.map (fun r => getCell t r c))))) }

/-- executePivot mirrors `_execute_pivot`: missing `index`/`columns`/
`values` config returns the input unchanged; otherwise an index×labels
matrix with `fill_value=0` (label order is first occurrence; pandas sorts
labels — again only row/column order, untouched by any theorem). -/
def executePivot (t : Table) (cfg : Config) : Except String Table :=
  match cfg.pivot_columns, cfg.values with
  | some pc, some vc =>
      if cfg.index = [] ∨ pc = "" ∨ vc = "" then .ok t
      else if ¬ (cfg.index.all (· ∈ t.cols) ∧ pc ∈ t.cols ∧ vc ∈ t.cols) then
        .error "pivot_table: 列不存在"
      else if ¬ validAggFun cfg.aggfunc then .error "pivot_table: 聚合函数无效"
      else
        let labels := (groupKeysList t [pc]).map (fun k => k.getD 0 .null)
        .ok { cols := cfg.index ++ labels.map valueToStr,
              rows := (groupKeysList t cfg.index).map (fun k =>
                let g := groupRows t cfg.index k
                k ++ labels.map (fun lb =>
                  let cell := (g.filter (fun r => getCell t r pc = lb)).map (fun r => getCell t r vc)
                  if cell = [] then Value.num 0 else aggFun cfg.aggfunc cell)) }
  | _, _ => .ok t

/-- executeUnpivot mirrors `_execute_unpivot` (`pd.melt`): for each value
variable in turn, one output row per input row. -/
def executeUnpivot (t : Table) (cfg : Config) : Except String Table :=
  let vvars := if cfg.value_vars = [] then t.cols.filter (fun c => c ∉ cfg.id_vars) else cfg.value_vars
  if ¬ (cfg.id_vars.all (· ∈ t.cols) ∧ vvars.all (· ∈ t.cols)) then .error "melt: 列不存在"
  else
    .ok { cols := cfg.id_vars ++ [cfg.var_name, cfg.value_name],
          rows := vvars.flatMap (fun v =>
            t.rows.map (fun r => cfg.id_vars.map (getCell t r) ++ [.str v, getCell t r v])) }

/-- mergeCollapsed lists the key pairs whose left and right names agree:
those collapse into a single result column. -/
def mergeCollapsed (lOn rOn : List String) : List String :=
  (lOn.zip rOn).filterMap (fun p => if p.1 = p.2 then some p.1 else none)

/-- mergeRKeep is the right-side columns that survive the merge. -/
def mergeRKeep (r : Table) (lOn rOn : List String) : List String :=
  r.cols.filter (fun c => c ∉ mergeCollapsed lOn rOn)

/-- mergeRowMatch decides whether a left row and a right row agree on all
key pairs. -/
def mergeRowMatch (l r : Table) (lOn rOn : List String) (a b : List Value) : Bool :=
  (lOn.zip rOn).all (fun p => getCell l a p.1 = getCell r b p.2)

/-- mergeRightPart projects a right row to its surviving columns. -/
def mergeRightPart (r : Table) (lOn rOn : List String) (b : List Value) : List Value :=
  (mergeRKeep r lOn rOn).map (fun c => getCell r b c)

/-- mergeRightOnlyRow builds the result row of an unmatched right row:
null left part except collapsed keys, then the right part. -/
def mergeRightOnlyRow (l r : Table) (lOn rOn : List String) (b : List Value) : List Value :=
  l.cols.map (fun c => if c ∈ mergeCollapsed lOn rOn then getCell r b c else Value.null) ++
    mergeRightPart r lOn rOn b

/-- pdMerge is the model of `pd.merge(left, right, left_on, right_on,
how)`: key pairs with equal names collapse into one column carrying the
left value (the right value on right-only rows); remaining overlapping
names get the `_x`/`_y` suffixes; matched rows pair the left row with
every matching right row in order; `left`/`outer` keep unmatched left
rows null-filled on the right; `outer` appends unmatched right rows;
`right` walks the right rows instead. -/
def pdMerge (l r : Table) (lOn rOn : List String) (how : String) : Table :=
  let rKeep := mergeRKeep r lOn rOn
  let overlap := l.cols.filter (fun c => c ∈ rKeep)
  let lcols := l.cols.map (fun c => if c ∈ overlap then c ++ "_x" else c)
  let rcols := rKeep.map (fun c => if c ∈ overlap then c ++ "_y" else c)
  let rowsOut :=
    if how = "right" then
      r.rows.flatMap (fun b =>
        let ms := l.rows.filter (fun a => mergeRowMatch l r lOn rOn a b)
        if ms = [] then [mergeRightOnlyRow l r lOn rOn b]
        else ms.map (fun a => a ++ mergeRightPart r lOn rOn b))
    else
      l.rows.flatMap (fun a =>
        let ms := r.rows.filter (mergeRowMatch l r lOn rOn a)
        if ms = [] then
          (if how = "inner" then [] else [a ++ rKeep.map (fun _ => Value.null)])
        else ms.map (fun b => a ++ mergeRightPart r lOn rOn b)) ++
      (if how = "outer" then
        (r.rows.filter (fun b => ¬ l.rows.any (fun a => mergeRowMatch l r lOn rOn a b))).map
          (mergeRightOnlyRow l r lOn rOn)
      else [])
  { cols := lcols ++ rcols, rows := rowsOut }

/-- executeJoin mirrors `_execute_join`: `full_outer` is canonicalized to
`outer`, `on` backs up `left_on`/`right_on`, keys must exist and are
coerced to text on both sides, and after the merge the right key column is
dropped wherever its name differs from the left one. -/
def executeJoin (df1 df2 : Table) (cfg : Config) : Except String Table :=
  let how := if cfg.how = "full_outer" then "outer" else cfg.how
  match pyOrList cfg.left_on cfg.onKeys, pyOrList cfg.right_on cfg.onKeys with
  | some lOn, some rOn =>
      if ¬ (how = "inner" ∨ how = "left" ∨ how = "right" ∨ how = "outer") then
        .error "merge: how参数无效"
      else if ¬ lOn.all (· ∈ df1.cols) then
        .error ("Join失败: 左表中找不到关联列。现有列: " ++ toString df1.cols)
      else if ¬ rOn.all (· ∈ df2.cols) then
        .error ("Join失败: 右表中找不到关联列。现有列: " ++ toString df2.cols)
      else
        let d1 := lOn.foldl coerceStrCol df1
        let d2 := rOn.foldl coerceStrCol df2
        let merged := pdMerge d1 d2 lOn rOn how
        .ok ((lOn.zip rOn).foldl (fun t p =>
          if p.1 ≠ p.2 ∧ p.2 ∈ t.cols then dropColTable t p.2 else t) merged)
  | _, _ => .error "Join节点必须指定关联键 (left_on/right_on 或 on)"

/-- concatTables is `pd.concat(dfs, join, ignore_index=True)`: vertical
stack over the union (outer) or intersection (inner) of the column
names. -/
def concatTables (dfs : List Table) (joinMode : String) : Table :=
  let cols :=
    if joinMode = "inner" then
      match dfs with
      | [] => []
      | d :: rest => d.cols.filter (fun c => rest.all (fun e => c ∈ e.cols))
    else
      dfs.foldl (fun acc d => acc ++ d.cols.filter (fun c => c ∉ acc)) []
  { cols := cols,
    rows := dfs.flatMap (fun d => d.rows.map (fun r =>
      cols.map (fun c => if c ∈ d.cols then getCell d r c else Value.null))) }

/-- executeConcat mirrors `_execute_concat`; an invalid `join` raises in
pandas. -/
def executeConcat (dfs : List Table) (cfg : Config) : Except String Table :=
  if cfg.join = "outer" ∨ cfg.join = "inner" then .ok (concatTables dfs cfg.join)
  else .error "concat: join参数无效"

/-- executeVlookup mirrors `_execute_vlookup`: resolve the key names with
the legacy fallbacks, coerce both key columns to text, filter the
requested return columns to those existing (missing ones are only
logged), default to every lookup column absent from the main side, slice
the lookup to key+returns, left-merge, and drop the right key when its
name differs. -/
def executeVlookup (main lkp : Table) (cfg : Config) : Except String Table :=
  let leftKey := pyOrStr cfg.left_key cfg.lookup_key
  let rightKey := pyOrStr (pyOrStr cfg.right_key cfg.lookup_key) leftKey
  let returnCols := if cfg.columns_to_get ≠ [] then cfg.columns_to_get else cfg.return_columns
  match leftKey with
  | none => .error "VLOOKUP必须指定主表关联列 (left_key 或 lookup_key)"
  | some lk =>
      match rightKey with
      | none => .error "VLOOKUP必须指定查找表关联列 (right_key 或 lookup_key)"
      | some rk =>
          if lk ∉ main.cols then
            .error ("VLOOKUP失败: 主表中找不到关联列 '" ++ lk ++ "'。现有列: " ++ toString main.cols)
          else if rk ∉ lkp.cols then
            .error ("VLOOKUP失败: 查找表中找不到关联列 '" ++ rk ++ "'。现有列: " ++ toString lkp.cols)
          else
            let mainC := coerceStrCol main lk
            let lkpC := coerceStrCol lkp rk
            let valid0 := returnCols.filter (fun c => c ∈ lkpC.cols ∧ c ≠ rk)
            let valid := if valid0 = [] then lkpC.cols.filter (fun c => c ≠ rk ∧ c ∉ mainC.cols) else valid0
            let slice := projectTable lkpC ([rk] ++ valid)
            let merged := pdMerge mainC slice [lk] [rk] "left"
            .ok (if lk ≠ rk ∧ rk ∈ merged.cols then dropColTable merged rk else merged)

/-- executeDiff mirrors `_execute_diff`: default compare columns are the
common names (the source uses a Python set, whose iteration order is
unspecified; the left table's order is used here), rows present on only
one side are tagged and stacked. -/
def executeDiff (df1 df2 : Table) (cfg : Config) : Except String Table :=
  let cc := if cfg.compare_columns ≠ [] then cfg.compare_columns
            else df1.cols.filter (· ∈ df2.cols)
  if ¬ (cc.all (· ∈ df1.cols) ∧ cc.all (· ∈ df2.cols)) then .error "对比列不存在"
  else
    let k1 := fun (r : List Value) => cc.map (getCell df1 r)
    let k2 := fun (r : List Value) => cc.map (getCell df2 r)
    let only1 : Table :=
      { cols := df1.cols, rows := df1.rows.filter (fun r => ¬ df2.rows.any (fun s => k2 s = k1 r)) }
    let only2 : Table :=
      { cols := df2.cols, rows := df2.rows.filter (fun s => ¬ df1.rows.any (fun r => k1 r = k2 s)) }
    let t1 := setColTable only1 "_diff_status" (only1.rows.map (fun _ => .str "仅在表1"))
    let t2 := setColTable only2 "_diff_status" (only2.rows.map (fun _ => .str "仅在表2"))
    .ok (concatTables [t1, t2] "outer")

/-- renameColTable renames one column (as `df.rename(columns={old:new})`). -/
def renameColTable (t : Table) (old new : String) : Table :=
  { cols := t.cols.map (fun c => if c = old then new else c), rows := t.rows }

/-- reconcileGroup is step 1 of `_execute_reconcile`: group the detail
table by the join keys, summing the amount column into `明细汇总金额`. -/
def reconcileGroup (detail : Table) (ks : List String) (lc : String) : Table :=
  { cols := ks ++ ["明细汇总金额"],
    rows := (groupKeysList detail ks).map (fun k =>
      k ++ [.num (sumNums ((groupRows detail ks k).map (fun r => getCell detail r lc)))]) }

/-- coerceKeys coerces every join-key column to text. -/
def coerceKeys (t : Table) (ks : List String) : Table :=
  ks.foldl coerceStrCol t

/-- fill0 is `fillna(0)` on one cell. -/
def fill0 (v : Value) : Value :=
  if v = .null then .num 0 else v

/-- asNum extracts a number (the operands of the `差额` subtraction; a
non-numeric amount makes the pandas subtraction raise a TypeError). -/
def asNum : Value → Option Int
  | .num n => some n
  | _ => none

/-- reconcileRow is the elementwise post-merge phase of
`_execute_reconcile` on one merged row (the source phrases it as
vectorized column assignments — `fillna(0)`, the subtraction, `abs`, the
verdict — all of which are per-row): it yields the row extended with
`差额`, `差额绝对值` and `核算结果`. -/
def reconcileRow (k : Nat) (tol : Int) (r : List Value) : Option (List Value) := do
  let d ← asNum (fill0 (r.getD k .null))
  let s ← asNum (fill0 (r.getD (k + 1) .null))
  pure (r.take k ++ [.num d, .num s, .num (d - s), .num (|d - s|),
        .str (if |d - s| ≤ tol then "✅ 一致" else "❌ 不一致")])

/-- executeReconcile mirrors `_execute_reconcile`: resolve the config with
its legacy fallbacks, validate every referenced column, group the detail,
project+rename the summary, coerce keys to text, outer-merge, fill
missing amounts with 0, compute difference and verdict, filter to
mismatches in `diff_only` mode, and drop the temporary `差额绝对值`
column. -/
def executeReconcile (detail summary : Table) (cfg : Config) : Except String Table :=
  match pyOrList cfg.join_keys cfg.detail_key with
  | none => .error "对账核算必须指定关联键 (join_keys 或 detail_key)"
  | some ks =>
      match pyOrStr cfg.left_column cfg.detail_amount with
      | none => .error "对账核算必须指定明细表金额列 (left_column 或 detail_amount)"
      | some lc =>
          match pyOrStr cfg.right_column cfg.summary_amount with
          | none => .error "对账核算必须指定汇总表金额列 (right_column 或 summary_amount)"
          | some rc =>
              if ¬ ks.all (· ∈ detail.cols) then
                .error ("对账失败: 明细表中找不到关联列。现有列: " ++ toString detail.cols)
              else if ¬ ks.all (· ∈ summary.cols) then
                .error ("对账失败: 汇总表中找不到关联列。现有列: " ++ toString summary.cols)
              else if lc ∉ detail.cols then
                .error ("对账失败: 明细表中找不到金额列 '" ++ lc ++ "'。现有列: " ++ toString detail.cols)
              else if rc ∉ summary.cols then
                .error ("对账失败: 汇总表中找不到金额列 '" ++ rc ++ "'。现有列: " ++ toString summary.cols)
              else
                let dg := coerceKeys (reconcileGroup detail ks lc) ks
                let sr := coerceKeys (renameColTable (projectTable summary (ks ++ [rc])) rc "汇总表金额") ks
                let merged := pdMerge dg sr ks ks "outer"
                let k := ks.length
                match merged.rows.mapM (reconcileRow k cfg.tolerance) with
                | none => .error "对账失败: 金额列不是数值"
                | some rows' =>
                    let full : Table :=
                      { cols := merged.cols ++ ["差额", "差额绝对值", "核算结果"], rows := rows' }
                    let result : Table :=
                      if cfg.output_mode = "diff_only" then
                        { cols := full.cols,
                          rows := full.rows.filter (fun r =>
                            match r.getD (k + 3) .null with
                            | .num a => a > cfg.tolerance
                            | _ => false) }
                      else full
                    .ok (dropColTable result "差额绝对值")

/-- executeCode mirrors `_execute_code`; the `exec` of the user script is
the `codeExec` oracle (the script must produce a DataFrame `result`, which
the oracle models by returning a `Table` or an error). -/
def executeCode (env : Env) (inputDfs : List Table) (cfg : Config) : Except String Table :=
  match cfg.python_code with
  | none => .error "代码节点内容为空"
  | some c => if c = "" then .error "代码节点内容为空" else env.codeExec c inputDfs

/-- containsSub is Python's `in` on strings. -/
def containsSub (hay needle : String) : Bool :=
  hay.toList.tails.any (fun s => needle.toList.isPrefixOf s)

/-- buildRowPrompt mirrors the prompt construction of
`_execute_ai_agent`: replace every `{{col}}` token present with the
stringified cell; when the template contains no column placeholder at
all, append the rendered key/value block of the row. -/
def buildRowPrompt (t : Table) (tmpl : String) (r : List Value) : String :=
  let rp := t.cols.foldl (fun p c =>
    let ph := "\x7b\x7b" ++ c ++ "\x7d\x7d"
    if containsSub p ph then p.replace ph (valueToStr (getCell t r c)) else p) tmpl
  let hasPh := t.cols.any (fun c => containsSub tmpl ("\x7b\x7b" ++ c ++ "\x7d\x7d"))
  if hasPh then rp
  else tmpl ++ "\n\n当前数据行:\n" ++
    String.intercalate "\n" (t.cols.map (fun c => "- " ++ c ++ ": " ++ valueToStr (getCell t r c)))

/-- executeAiAgent mirrors `_execute_ai_agent` (the `llm_row` operator of
the spec): an empty prompt raises; exactly the first `min(len(df), 20)`
rows are processed — the `row_limit` config key is never read by the
source; one chat-completion call per row in row order, a failing call
stored as `Error: <message>` in the target cell; the result is the
processed head with the target column assigned. -/
def aiCell : Except String String → Value
  | .ok s => .str s
  | .error m => .str ("Error: " ++ m)

def executeAiAgent (env : Env) (df : Table) (cfg : Config) : Except String Table :=
  if cfg.prompt = "" then .error "AI节点必须包含Prompt配置"
  else
    let limit := min df.rows.length 20
    let dfHead : Table := { cols := df.cols, rows := df.rows.take limit }
    let results := dfHead.rows.map (fun r => aiCell (env.aiCall (buildRowPrompt df cfg.prompt r)))
    .ok (setColTable dfHead cfg.target_column results)

/-- saveName mirrors `_save_output`'s filename logic: the configured
filename or `output_<uuid4 fragment>`, auto-suffixed `.csv`/`.xlsx`.  The
actual file write is a side effect outside the report value. -/
def saveName (env : Env) (cfg : Config) (nodeType : String) (saves : Nat) : String :=
  let filename := cfg.filename.getD ("output_" ++ env.uuids saves)
  if nodeType = "output_csv" then
    (if filename.endsWith ".csv" then filename else filename ++ ".csv")
  else
    (if filename.endsWith ".xlsx" then filename else filename ++ ".xlsx")

/-- executeNodeByType mirrors `_execute_node_by_type`: dispatch on the
node type tag; unary operators return `none` when they have no input;
binary operators raise on fewer than two inputs; an unrecognized tag
falls through to `none`. -/
def executeNodeByType (env : Env) (fm : List (String × String)) (nodeType : String)
    (cfg : Config) (inputDfs : List Table) : Except String (Option Table) :=
  if nodeType = "source" then (executeSource env cfg fm).map some
  else if nodeType = "source_csv" then (executeSourceCsv env cfg fm).map some
  else if nodeType = "transform" then
    match inputDfs with
    | [] => .ok none
    | df :: _ => (executeTransform df cfg).map some
  else if nodeType = "type_convert" then
    match inputDfs with
    | [] => .ok none
    | df :: _ => .ok (some (executeTypeConvert env df cfg))
  else if nodeType = "fill_na" then
    match inputDfs with
    | [] => .ok none
    | df :: _ => (executeFillNa df cfg).map some
  else if nodeType = "deduplicate" then
    match inputDfs with
    | [] => .ok none
    | df :: _ => (executeDeduplicate df cfg).map some
  else if nodeType = "text_process" then
    match inputDfs with
    | [] => .ok none
    | df :: _ => .ok (some (executeTextProcess env df cfg))
  else if nodeType = "date_process" then
    match inputDfs with
    | [] => .ok none
    | df :: _ => .ok (some (executeDateProcess env df cfg))
  else if nodeType = "group_aggregate" then
    match inputDfs with
    | [] => .ok none
    | df :: _ => (executeGroupAggregate df cfg).map some
  else if nodeType = "pivot" then
    match inputDfs with
    | [] => .ok none
    | df :: _ => (executePivot df cfg).map some
  else if nodeType = "unpivot" then
    match inputDfs with
    | [] => .ok none
    | df :: _ => (executeUnpivot df cfg).map some
  else if nodeType = "join" then
    match inputDfs with
    | a :: b :: _ => (executeJoin a b cfg).map some
    | _ => .error "合并节点需要至少两个输入"
  else if nodeType = "concat" then
    match inputDfs with
    | [] => .ok none
    | dfs => (executeConcat dfs cfg).map some
  else if nodeType = "vlookup" then
    match inputDfs with
    | a :: b :: _ => (executeVlookup a b cfg).map some
    | _ => .error "VLOOKUP需要两个输入"
  else if nodeType = "diff" then
    match inputDfs with
    | a :: b :: _ => (executeDiff a b cfg).map some
    | _ => .error "对比需要两个输入"
  else if nodeType = "reconcile" then
    match inputDfs with
    | a :: b :: _ => (executeReconcile a b cfg).map some
    | _ => .error "对账核算需要两个输入：明细表和汇总表"
  else if nodeType = "code" then (executeCode env inputDfs cfg).map some
  else if nodeType = "ai_agent" then
    match inputDfs with
    | [] => .ok none
    | df :: _ => (executeAiAgent env df cfg).map some
  else if nodeType = "output" ∨ nodeType = "output_csv" then
    match inputDfs with
    | [] => .ok none
    | df :: _ => .ok (some df)
  else .ok none

/-- Node is one entry of the graph document's `nodes` array (the `data`
wrapper compatibility of the source is absorbed at parse). -/
structure Node where
  id : String
  type : String
  label : Option String := none
  config : Config := {}

/-- Edge is one entry of the `edges` array. -/
structure Edge where
  source : String
  target : String
deriving DecidableEq, Repr

/-- Graph is the parsed workflow document. -/
structure Graph where
  nodes : List Node
  edges : List Edge

/-- Status is the per-node lifecycle state of the run report. -/
inductive Status where
  | pending
  | success
  | error
deriving DecidableEq, Repr

/-- TablePreview is the serialized form of a table in the report
(`columns`/`data`/`total_rows`, nulls rendered as empty strings by
`fillna("")`). -/
structure TablePreview where
  columns : List String
  data : List (List Value)
  total_rows : Nat
deriving DecidableEq, Repr

/-- NodeResult is one entry of `node_results`: serialized data on
success, the message on error. -/
inductive NodeResult where
  | ok (p : TablePreview)
  | err (msg : String)
deriving DecidableEq, Repr

/-- Report is the value returned by `execute_workflow` (the failure
report of the source carries no `output_file`/`preview` keys, rendered
here as `none`). -/
structure Report where
  success : Bool
  error : Option String
  output_file : Option String
  preview : Option TablePreview
  logs : List (String × String)
  node_status : List (String × Status)
  node_results : List (String × NodeResult)
deriving DecidableEq, Repr

/-- graphIds lists the node ids in document order. -/
def graphIds (g : Graph) : List String :=
  g.nodes.map (·.id)

/-- adjOf mirrors the adjacency dict: targets of the edges whose both
endpoints are declared nodes, in edge order. -/
def adjOf (g : Graph) (s : String) : List String :=
  if s ∈ graphIds g then
    (g.edges.filter (fun e => e.source = s ∧ e.source ∈ graphIds g ∧ e.target ∈ graphIds g)).map (·.target)
  else []

/-- indegInit mirrors the `in_degree` dict after the edge scan: for each
declared node, the number of edges pointing at it from declared nodes. -/
def indegInit (g : Graph) : List (String × Int) :=
  (g.nodes.foldl (fun d n => dset d n.id (0 : Int)) []).map (fun p =>
    (p.1, (g.edges.filter (fun e => e.target = p.1 ∧ e.source ∈ graphIds g)).length))

/-- kahnLoop is the queue loop of the topological sort: pop the head,
append it to the order, decrement each neighbour, enqueue a neighbour
exactly when its count reaches zero.  Fuel bounds the queue traffic
(initial seeds plus one push per edge). -/
def kahnLoop (adj : String → List String) :
    Nat → List String → List (String × Int) → List String → List String
  | 0, _, _, acc => acc
  | _ + 1, [], _, acc => acc
  | fuel + 1, nid :: queue, indeg, acc =>
      let step := (adj nid).foldl (fun (p : List (String × Int) × List String) nb =>
        let v := (dget p.1 nb).getD 0 - 1
        let d' := dset p.1 nb v
        if v = 0 then (d', p.2 ++ [nb]) else (d', p.2)) (indeg, queue)
      kahnLoop adj fuel step.2 step.1 (acc ++ [nid])

/-- topoOrder mirrors the Kahn topological sort of `execute_workflow`:
seed the queue with the zero-indegree nodes in document order; ties
resolve by queue order; nodes on cycles never enter the order. -/
def topoOrder (g : Graph) : List String :=
  let indeg := indegInit g
  let queue := (g.nodes.filter (fun n => (dget indeg n.id).getD 0 = 0)).map (·.id)
  kahnLoop (adjOf g) (g.nodes.length + g.edges.length + 1) queue indeg []

/-- RState is the mutable state of the run loop: the context results and
logs, the status and result dicts, the pending output file/preview, and
the count of files saved so far (the index into the uuid stream). -/
structure RState where
  results : List (String × Table)
  logs : List (String × String)
  status : List (String × Status)
  nres : List (String × NodeResult)
  outFile : Option String
  preview : Option TablePreview
  saves : Nat

/-- stLog mirrors `context.log`: append a `[timestamp] message` entry;
the timestamp is the `times` stream at the index of the next log line. -/
def stLog (env : Env) (st : RState) (msg : String) : RState :=
  { st with logs := st.logs ++ [(env.times st.logs.length, msg)] }

/-- fillBlank mirrors `fillna("")` before `to_dict`. -/
def fillBlank (v : Value) : Value :=
  if v = .null then .str "" else v

/-- previewOf serializes a table for `node_results` (all rows). -/
def previewOf (t : Table) : TablePreview :=
  { columns := t.cols, data := t.rows.map (fun r => r.map fillBlank), total_rows := t.rows.length }

/-- headPreviewOf serializes the first 100 rows for the final preview. -/
def headPreviewOf (t : Table) : TablePreview :=
  { columns := t.cols,
    data := (t.rows.take 100).map (fun r => r.map fillBlank),
    total_rows := t.rows.length }

/-- collectInputs mirrors the input scan of the runner: the results of
the edge sources pointing at this node, in edge (document) order,
silently skipping sources without a stored result. -/
def collectInputs (edges : List Edge) (results : List (String × Table)) (nid : String) : List Table :=
  (edges.filter (fun e => e.target = nid)).filterMap (fun e => dget results e.source)

/-- processNode executes one node inside the runner's `try`: log the
start, collect inputs, dispatch; on success store the result, log, mark
success and record the serialized result (plus the save/preview side of
output nodes); on error mark the node errored, record the message, log,
and return the raised message. -/
def processNode (env : Env) (fm : List (String × String)) (edges : List Edge)
    (nid : String) (node : Node) (st : RState) : RState × Option String :=
  let label := node.label.getD node.type
  let st := stLog env st ("开始执行节点: " ++ label ++ " (" ++ nid ++ ")")
  let inputs := collectInputs edges st.results nid
  match executeNodeByType env fm node.type node.config inputs with
  | .error m =>
      let st := { st with status := dset st.status nid .error,
                          nres := dset st.nres nid (.err m) }
      let st := stLog env st ("节点 " ++ label ++ " 执行失败: " ++ m)
      (st, some m)
  | .ok none => ({ st with status := dset st.status nid .success }, none)
  | .ok (some t) =>
      let st := { st with results := dset st.results nid t }
      let st := stLog env st ("节点 " ++ label ++ " 执行成功，输出 " ++ toString t.rows.length ++ " 行数据")
      let st := { st with status := dset st.status nid .success,
                          nres := dset st.nres nid (.ok (previewOf t)) }
      if node.type = "output" ∨ node.type = "output_csv" then
        ({ st with outFile := some (saveName env node.config node.type st.saves),
                   saves := st.saves + 1,
                   preview := some (headPreviewOf t) }, none)
      else (st, none)

/-- runLoop walks the execution order; a raised node error aborts the
walk and is returned alongside the state (the runner's `raise` into the
outer `except`). -/
def runLoop (env : Env) (fm : List (String × String)) (edges : List Edge)
    (nmap : List (String × Node)) : List String → RState → RState × Option String
  | [], st => (st, none)
  | nid :: rest, st =>
      match dget nmap nid with
      | none => runLoop env fm edges nmap rest st
      | some node =>
          match (processNode env fm edges nid node st).2 with
          | none => runLoop env fm edges nmap rest (processNode env fm edges nid node st).1
          | some m => ((processNode env fm edges nid node st).1, some m)

/-- executeWorkflow mirrors `WorkflowEngine.execute_workflow`: build the
node map and the topological order, initialize every node to `pending`,
run the loop, and assemble the success or failure report; a node failure
is a value-level outcome, never an exception out of the runner. -/
def executeWorkflow (env : Env) (g : Graph) (fm : List (String × String)) : Report :=
  let nmap := g.nodes.foldl (fun d n => dset d n.id n) []
  let st0 : RState :=
    { results := [], logs := [],
      status := g.nodes.foldl (fun d n => dset d n.id .pending) [],
      nres := [], outFile := none, preview := none, saves := 0 }
  match runLoop env fm g.edges nmap (topoOrder g) st0 with
  | (st, none) =>
      { success := true, error := none, output_file := st.outFile,
        preview := st.preview, logs := st.logs,
        node_status := st.status, node_results := st.nres }
  | (st, some m) =>
      { success := false, error := some m, output_file := none,
        preview := none, logs := st.logs,
        node_status := st.status, node_results := st.nres }

/-- hget dereferences a heap address. -/
def hget (h : Heap) (a : Nat) : Table :=
  h.getD a default

/-- hAlloc models the creation of a fresh DataFrame object (`df.copy()`,
or any pandas call returning a new frame): append it, return its
address. -/
def hAlloc (h : Heap) (t : Table) : Heap × Nat :=
  (h ++ [t], h.length)

/-- hMut models an in-place write (`df[col] = ...`) at an address: the
frame at `a` is replaced by the written-to frame. -/
def hMut (h : Heap) (a : Nat) (f : Table → Table) : Heap :=
  h.set a (f (hget h a))

/-- calcFoldH is the heap-level `calculations` loop of
`_execute_transform`: each resolvable formula writes its target column in
place at address `a` (the frame rebound after the drop stage). -/
def calcFoldH (cs : List CalcSpec) (h : Heap) (a : Nat) : Heap :=
  cs.foldl (fun h' c =>
    if c.target = "" then h'
    else
      match (hget h' a).rows.mapM (fun r => evalExpr (hget h' a) r c.formula) with
      | none => h'
      | some vals => hMut h' a (fun t => setColTable t c.target vals)) h

/-- transformH is `_execute_transform` at the heap level: copy the input,
then each stage rebinds `df` to a fresh frame except the calculation
writes, which mutate the current frame in place. -/
def transformH (cfg : Config) (h : Heap) (a : Nat) : Heap × Except String Nat :=
  let p0 := hAlloc h (hget h a)
  match filterStep cfg (hget p0.1 p0.2) with
  | .error m => (p0.1, .error m)
  | .ok t1 =>
      let p1 := hAlloc p0.1 t1
      let p2 := hAlloc p1.1 (dropStep cfg (hget p1.1 p1.2))
      let h3 := calcFoldH cfg.calculations p2.1 p2.2
      let p4 := hAlloc h3 (renameStep cfg (hget h3 p2.2))
      let p5 := hAlloc p4.1 (selectStep cfg (hget p4.1 p4.2))
      let p6 := hAlloc p5.1 (sortStep cfg (hget p5.1 p5.2))
      (p6.1, .ok p6.2)

/-- typeConvertH: copy, then each conversion writes its column in place
on the copy. -/
def typeConvertH (env : Env) (cfg : Config) (h : Heap) (a : Nat) : Heap × Except String Nat :=
  let p := hAlloc h (hget h a)
  (cfg.conversions.foldl (fun h' cv => hMut h' p.2 (fun t => convertOne env t cv)) p.1, .ok p.2)

/-- fillNaH: copy; the `drop` strategy rebinds to the fresh `dropna`
frame, every other strategy writes the target columns in place on the
copy. -/
def fillNaH (cfg : Config) (h : Heap) (a : Nat) : Heap × Except String Nat :=
  let p := hAlloc h (hget h a)
  match executeFillNa (hget p.1 p.2) cfg with
  | .error m => (p.1, .error m)
  | .ok t =>
      if cfg.strategy = "drop" then
        let q := hAlloc p.1 t
        (q.1, .ok q.2)
      else (p.1.set p.2 t, .ok p.2)

/-- textProcessH: copy, write the processed column in place. -/
def textProcessH (env : Env) (cfg : Config) (h : Heap) (a : Nat) : Heap × Except String Nat :=
  let p := hAlloc h (hget h a)
  (p.1.set p.2 (executeTextProcess env (hget p.1 p.2) cfg), .ok p.2)

/-- dateProcessH: copy, write the datetime/component/shift columns in
place. -/
def dateProcessH (env : Env) (cfg : Config) (h : Heap) (a : Nat) : Heap × Except String Nat :=
  let p := hAlloc h (hget h a)
  (p.1.set p.2 (executeDateProcess env (hget p.1 p.2) cfg), .ok p.2)

/-- joinH: both inputs are copied, the key coercions write on the copies,
the merge and the key drops produce fresh frames. -/
def joinH (cfg : Config) (h : Heap) (a b : Nat) : Heap × Except String Nat :=
  let p1 := hAlloc h (hget h a)
  let p2 := hAlloc p1.1 (hget h b)
  let lOn := (pyOrList cfg.left_on cfg.onKeys).getD []
  let rOn := (pyOrList cfg.right_on cfg.onKeys).getD []
  let h2 := hMut p2.1 p1.2 (fun t => lOn.foldl coerceStrCol t)
  let h3 := hMut h2 p2.2 (fun t => rOn.foldl coerceStrCol t)
  match executeJoin (hget h a) (hget h b) cfg with
  | .error m => (h3, .error m)
  | .ok t =>
      let q := hAlloc h3 t
      (q.1, .ok q.2)

/-- vlookupH: both inputs are copied, the key coercions write on the
copies, slice/merge/drop are fresh frames. -/
def vlookupH (cfg : Config) (h : Heap) (a b : Nat) : Heap × Except String Nat :=
  let p1 := hAlloc h (hget h a)
  let p2 := hAlloc p1.1 (hget h b)
  let lk := (pyOrStr cfg.left_key cfg.lookup_key).getD ""
  let rk := (pyOrStr (pyOrStr cfg.right_key cfg.lookup_key) (pyOrStr cfg.left_key cfg.lookup_key)).getD ""
  let h2 := hMut p2.1 p1.2 (fun t => coerceStrCol t lk)
  let h3 := hMut h2 p2.2 (fun t => coerceStrCol t rk)
  match executeVlookup (hget h a) (hget h b) cfg with
  | .error m => (h3, .error m)
  | .ok t =>
      let q := hAlloc h3 t
      (q.1, .ok q.2)

/-- aiAgentH: the processed head is an explicit `.copy()`, the target
column is written on that copy. -/
def aiAgentH (env : Env) (cfg : Config) (h : Heap) (a : Nat) : Heap × Except String Nat :=
  match executeAiAgent env (hget h a) cfg with
  | .error m => (h, .error m)
  | .ok t =>
      let p := hAlloc h { cols := (hget h a).cols, rows := (hget h a).rows.take (min (hget h a).rows.length 20) }
      (p.1.set p.2 t, .ok p.2)

/-- pivotActive mirrors the `if not index or not columns or not values`
guard of `_execute_pivot` (false = the input frame is returned as-is). -/
def pivotActive (cfg : Config) : Bool :=
  match cfg.pivot_columns, cfg.values with
  | some pc, some vc => ¬ (cfg.index = [] ∨ pc = "" ∨ vc = "")
  | _, _ => false

/-- liftE lifts a unary heap-operator result into the dispatcher's shape. -/
def liftE (p : Heap × Except String Nat) : Heap × Except String (Option Nat) :=
  (p.1, p.2.map some)

/-- allocE allocates the fresh result frame of an operator whose in-place
writes all land on frames it created itself. -/
def allocE (h : Heap) (r : Except String Table) : Heap × Except String (Option Nat) :=
  match r with
  | .error m => (h, .error m)
  | .ok t => ((hAlloc h t).1, .ok (some (hAlloc h t).2))

/-- heapExecNode is `_execute_node_by_type` at the heap level: it records
which frames each operator mutates.  Operators whose in-place writes land
only on frames they created themselves (`deduplicate`, `group_aggregate`,
`pivot`, `unpivot`, `concat`, `diff`, `reconcile` — their slices and
merges are fresh `.copy()`/`reset_index` frames) allocate their result
directly; `output` returns its input frame unchanged; the `code` node
runs the arbitrary user script (the `codeExecH` oracle), which may write
anywhere. -/
def heapExecNode (env : Env) (fm : List (String × String)) (nodeType : String)
    (cfg : Config) (addrs : List Nat) (h : Heap) : Heap × Except String (Option Nat) :=
  if nodeType = "source" then allocE h (executeSource env cfg fm)
  else if nodeType = "source_csv" then allocE h (executeSourceCsv env cfg fm)
  else if nodeType = "transform" then
    match addrs with
    | [] => (h, .ok none)
    | a :: _ => liftE (transformH cfg h a)
  else if nodeType = "type_convert" then
    match addrs with
    | [] => (h, .ok none)
    | a :: _ => liftE (typeConvertH env cfg h a)
  else if nodeType = "fill_na" then
    match addrs with
    | [] => (h, .ok none)
    | a :: _ => liftE (fillNaH cfg h a)
  else if nodeType = "deduplicate" then
    match addrs with
    | [] => (h, .ok none)
    | a :: _ => allocE h (executeDeduplicate (hget h a) cfg)
  else if nodeType = "text_process" then
    match addrs with
    | [] => (h, .ok none)
    | a :: _ => liftE (textProcessH env cfg h a)
  else if nodeType = "date_process" then
    match addrs with
    | [] => (h, .ok none)
    | a :: _ => liftE (dateProcessH env cfg h a)
  else if nodeType = "group_aggregate" then
    match addrs with
    | [] => (h, .ok none)
    | a :: _ =>
        if cfg.group_by = [] then (h, .ok (some a))
        else allocE h (executeGroupAggregate (hget h a) cfg)
  else if nodeType = "pivot" then
    match addrs with
    | [] => (h, .ok none)
    | a :: _ =>
        if pivotActive cfg then allocE h (executePivot (hget h a) cfg)
        else (h, .ok (some a))
  else if nodeType = "unpivot" then
    match addrs with
    | [] => (h, .ok none)
    | a :: _ => allocE h (executeUnpivot (hget h a) cfg)
  else if nodeType = "join" then
    match addrs with
    | a :: b :: _ => liftE (joinH cfg h a b)
    | _ => (h, .error "合并节点需要至少两个输入")
  else if nodeType = "concat" then
    match addrs with
    | [] => (h, .ok none)
    | addrs => allocE h (executeConcat (addrs.map (hget h)) cfg)
  else if nodeType = "vlookup" then
    match addrs with
    | a :: b :: _ => liftE (vlookupH cfg h a b)
    | _ => (h, .error "VLOOKUP需要两个输入")
  else if nodeType = "diff" then
    match addrs with
    | a :: b :: _ => allocE h (executeDiff (hget h a) (hget h b) cfg)
    | _ => (h, .error "对比需要两个输入")
  else if nodeType = "reconcile" then
    match addrs with
    | a :: b :: _ => allocE h (executeReconcile (hget h a) (hget h b) cfg)
    | _ => (h, .error "对账核算需要两个输入：明细表和汇总表")
  else if nodeType = "code" then
    match cfg.python_code with
    | none => (h, .error "代码节点内容为空")
    | some c =>
        if c = "" then (h, .error "代码节点内容为空")
        else
          match env.codeExecH c addrs h with
          | (h', .ok n) => (h', .ok (some n))
          | (h', .error m) => (h', .error m)
  else if nodeType = "ai_agent" then
    match addrs with
    | [] => (h, .ok none)
    | a :: _ => liftE (aiAgentH env cfg h a)
  else if nodeType = "output" ∨ nodeType = "output_csv" then
    match addrs with
    | [] => (h, .ok none)
    | a :: _ => (h, .ok (some a))
  else (h, .ok none)

/-- FrameOn states that the first `N` heap cells are untouched. -/
def FrameOn (N : Nat) (h h' : Heap) : Prop :=
  ∀ i, i < N → h'[i]? = h[i]?

theorem frameOn_refl (N : Nat) (h : Heap) : FrameOn N h h :=
  fun _ _ => rfl

theorem frameOn_trans {N : Nat} {h h' h'' : Heap}
    (a : FrameOn N h h') (b : FrameOn N h' h'') : FrameOn N h h'' :=
  fun i hi => (b i hi).trans (a i hi)

theorem frameOn_append {N : Nat} {h : Heap} (l : List Table) (hN : N ≤ h.length) :
    FrameOn N h (h ++ l) := by
  intro i hi
  rw [List.getElem?_append, if_pos (by omega)]

theorem frameOn_set {N a : Nat} {h : Heap} (t : Table) (ha : N ≤ a) :
    FrameOn N h (h.set a t) := by
  intro i hi
  exact List.getElem?_set_ne (by omega)

theorem frameOn_alloc {N : Nat} {h : Heap} (t : Table) (hN : N ≤ h.length) :
    FrameOn N h (hAlloc h t).1 :=
  frameOn_append [t] hN

theorem calcFoldH_length (cs : List CalcSpec) (h : Heap) (a : Nat) :
    (calcFoldH cs h a).length = h.length := by
  induction cs generalizing h with
  | nil => rfl
  | cons c cs ih =>
      simp only [calcFoldH, List.foldl_cons]
      rw [show (List.foldl _ _ cs : Heap) = calcFoldH cs _ a from rfl] at *
      split
      · exact ih h
      · split
        · exact ih h
        · rw [ih]; simp [hMut]

theorem calcFoldH_frame {N : Nat} (cs : List CalcSpec) (h : Heap) (a : Nat)
    (ha : N ≤ a) : FrameOn N h (calcFoldH cs h a) := by
  induction cs generalizing h with
  | nil => exact frameOn_refl N h
  | cons c cs ih =>
      simp only [calcFoldH, List.foldl_cons]
      rw [show (List.foldl _ _ cs : Heap) = calcFoldH cs _ a from rfl]
      split
      · exact ih h
      · split
        · exact ih h
        · exact frameOn_trans (frameOn_set _ ha) (ih _)

theorem frameOn_snoc {N : Nat} {h X : Heap} (l : List Table)
    (prev : FrameOn N h X) (hl : N ≤ X.length) : FrameOn N h (X ++ l) :=
  frameOn_trans prev (frameOn_append l hl)

theorem frameOn_setOut {N a : Nat} {h X : Heap} (t : Table)
    (prev : FrameOn N h X) (ha : N ≤ a) : FrameOn N h (X.set a t) :=
  frameOn_trans prev (frameOn_set t ha)

theorem frameOn_calcFold {N a : Nat} {h X : Heap} (cs : List CalcSpec)
    (prev : FrameOn N h X) (ha : N ≤ a) : FrameOn N h (calcFoldH cs X a) :=
  frameOn_trans prev (calcFoldH_frame cs X a ha)

theorem foldl_hMut_frame {α : Type} {N b : Nat} (g : α → Table → Table)
    (l : List α) (h0 : Heap) (hb : N ≤ b) :
    FrameOn N h0 (l.foldl (fun h' x => hMut h' b (fun t => g x t)) h0) := by
  induction l generalizing h0 with
  | nil => exact frameOn_refl N h0
  | cons x xs ih =>
      simp only [List.foldl_cons]
      exact frameOn_trans (frameOn_set _ hb) (ih _)

theorem transformH_frame {N : Nat} (cfg : Config) (h : Heap) (a : Nat)
    (hN : N ≤ h.length) : FrameOn N h (transformH cfg h a).1 := by
  unfold transformH
  dsimp only
  split
  · exact frameOn_append _ hN
  · refine frameOn_snoc _ ?_ (by simp [hAlloc, calcFoldH_length]; omega)
    refine frameOn_snoc _ ?_ (by simp [hAlloc, calcFoldH_length]; omega)
    refine frameOn_snoc _ ?_ (by simp [hAlloc, calcFoldH_length]; omega)
    refine frameOn_calcFold _ ?_ (by simp [hAlloc]; omega)
    refine frameOn_snoc _ ?_ (by simp [hAlloc]; omega)
    refine frameOn_snoc _ ?_ (by simp [hAlloc]; omega)
    exact frameOn_append _ hN

theorem typeConvertH_frame {N : Nat} (env : Env) (cfg : Config) (h : Heap) (a : Nat)
    (hN : N ≤ h.length) : FrameOn N h (typeConvertH env cfg h a).1 := by
  unfold typeConvertH
  dsimp only
  exact frameOn_trans (frameOn_append [hget h a] hN)
    (foldl_hMut_frame (fun cv t => convertOne env t cv) cfg.conversions _ (by simp [hAlloc]; omega))

theorem fillNaH_frame {N : Nat} (cfg : Config) (h : Heap) (a : Nat)
    (hN : N ≤ h.length) : FrameOn N h (fillNaH cfg h a).1 := by
  unfold fillNaH
  dsimp only
  split
  · exact frameOn_append _ hN
  · split
    · refine frameOn_snoc _ ?_ (by simp [hAlloc]; omega)
      exact frameOn_append _ hN
    · refine frameOn_setOut _ ?_ (by simp [hAlloc]; omega)
      exact frameOn_append _ hN

theorem textProcessH_frame {N : Nat} (env : Env) (cfg : Config) (h : Heap) (a : Nat)
    (hN : N ≤ h.length) : FrameOn N h (textProcessH env cfg h a).1 := by
  unfold textProcessH
  dsimp only
  exact frameOn_setOut _ (frameOn_append _ hN) (by simp [hAlloc]; omega)

theorem dateProcessH_frame {N : Nat} (env : Env) (cfg : Config) (h : Heap) (a : Nat)
    (hN : N ≤ h.length) : FrameOn N h (dateProcessH env cfg h a).1 := by
  unfold dateProcessH
  dsimp only
  exact frameOn_setOut _ (frameOn_append _ hN) (by simp [hAlloc]; omega)

theorem joinH_frame {N : Nat} (cfg : Config) (h : Heap) (a b : Nat)
    (hN : N ≤ h.length) : FrameOn N h (joinH cfg h a b).1 := by
  unfold joinH
  dsimp only
  split
  · refine frameOn_setOut _ ?_ (by simp [hAlloc]; omega)
    refine frameOn_setOut _ ?_ (by simp [hAlloc]; omega)
    refine frameOn_snoc _ ?_ (by simp [hAlloc]; omega)
    exact frameOn_append _ hN
  · refine frameOn_snoc _ ?_ (by simp [hAlloc, hMut]; omega)
    refine frameOn_setOut _ ?_ (by simp [hAlloc]; omega)
    refine frameOn_setOut _ ?_ (by simp [hAlloc]; omega)
    refine frameOn_snoc _ ?_ (by simp [hAlloc]; omega)
    exact frameOn_append _ hN

theorem vlookupH_frame {N : Nat} (cfg : Config) (h : Heap) (a b : Nat)
    (hN : N ≤ h.length) : FrameOn N h (vlookupH cfg h a b).1 := by
  unfold vlookupH
  dsimp only
  split
  · refine frameOn_setOut _ ?_ (by simp [hAlloc]; omega)
    refine frameOn_setOut _ ?_ (by simp [hAlloc]; omega)
    refine frameOn_snoc _ ?_ (by simp [hAlloc]; omega)
    exact frameOn_append _ hN
  · refine frameOn_snoc _ ?_ (by simp [hAlloc, hMut]; omega)
    refine frameOn_setOut _ ?_ (by simp [hAlloc]; omega)
    refine frameOn_setOut _ ?_ (by simp [hAlloc]; omega)
    refine frameOn_snoc _ ?_ (by simp [hAlloc]; omega)
    exact frameOn_append _ hN

theorem aiAgentH_frame {N : Nat} (env : Env) (cfg : Config) (h : Heap) (a : Nat)
    (hN : N ≤ h.length) : FrameOn N h (aiAgentH env cfg h a).1 := by
  unfold aiAgentH
  dsimp only
  split
  · exact frameOn_refl N h
  · exact frameOn_setOut _ (frameOn_append _ hN) (by simp [hAlloc]; omega)


theorem liftE_frame {N : Nat} {h : Heap} {p : Heap × Except String Nat}
    (hp : FrameOn N h p.1) : FrameOn N h (liftE p).1 := hp

theorem allocE_frame {h : Heap} (r : Except String Table) :
    FrameOn h.length h (allocE h r).1 := by
  unfold allocE
  split
  · exact frameOn_refl _ _
  · exact frameOn_append _ le_rfl

theorem heapExecNode_frame (env : Env) (fm : List (String × String)) (ty : String)
    (cfg : Config) (addrs : List Nat) (h : Heap) (hc : ty ≠ "code") :
    FrameOn h.length h (heapExecNode env fm ty cfg addrs h).1 := by
  unfold heapExecNode
  by_cases e1 : ty = "source"
  · rw [if_pos e1]; exact allocE_frame _
  rw [if_neg e1]
  by_cases e2 : ty = "source_csv"
  · rw [if_pos e2]; exact allocE_frame _
  rw [if_neg e2]
  by_cases e3 : ty = "transform"
  · rw [if_pos e3]
    rcases addrs with _ | ⟨a, rest⟩
    · exact frameOn_refl _ _
    · exact liftE_frame (transformH_frame _ _ _ le_rfl)
  rw [if_neg e3]
  by_cases e4 : ty = "type_convert"
  · rw [if_pos e4]
    rcases addrs with _ | ⟨a, rest⟩
    · exact frameOn_refl _ _
    · exact liftE_frame (typeConvertH_frame _ _ _ _ le_rfl)
  rw [if_neg e4]
  by_cases e5 : ty = "fill_na"
  · rw [if_pos e5]
    rcases addrs with _ | ⟨a, rest⟩
    · exact frameOn_refl _ _
    · exact liftE_frame (fillNaH_frame _ _ _ le_rfl)
  rw [if_neg e5]
  by_cases e6 : ty = "deduplicate"
  · rw [if_pos e6]
    rcases addrs with _ | ⟨a, rest⟩
    · exact frameOn_refl _ _
    · exact allocE_frame _
  rw [if_neg e6]
  by_cases e7 : ty = "text_process"
  · rw [if_pos e7]
    rcases addrs with _ | ⟨a, rest⟩
    · exact frameOn_refl _ _
    · exact liftE_frame (textProcessH_frame _ _ _ _ le_rfl)
  rw [if_neg e7]
  by_cases e8 : ty = "date_process"
  · rw [if_pos e8]
    rcases addrs with _ | ⟨a, rest⟩
    · exact frameOn_refl _ _
    · exact liftE_frame (dateProcessH_frame _ _ _ _ le_rfl)
  rw [if_neg e8]
  by_cases e9 : ty = "group_aggregate"
  · rw [if_pos e9]
    rcases addrs with _ | ⟨a, rest⟩
    · exact frameOn_refl _ _
    · dsimp only
      by_cases eg : cfg.group_by = []
      · rw [if_pos eg]; exact frameOn_refl _ _
      · rw [if_neg eg]; exact allocE_frame _
  rw [if_neg e9]
  by_cases e10 : ty = "pivot"
  · rw [if_pos e10]
    rcases addrs with _ | ⟨a, rest⟩
    · exact frameOn_refl _ _
    · dsimp only
      by_cases ep : pivotActive cfg = true
      · rw [if_pos ep]; exact allocE_frame _
      · rw [if_neg ep]; exact frameOn_refl _ _
  rw [if_neg e10]
  by_cases e10b : ty = "unpivot"
  · rw [if_pos e10b]
    rcases addrs with _ | ⟨a, rest⟩
    · exact frameOn_refl _ _
    · exact allocE_frame _
  rw [if_neg e10b]
  by_cases e11 : ty = "join"
  · rw [if_pos e11]
    rcases addrs with _ | ⟨a, _ | ⟨b, rest⟩⟩
    · exact frameOn_refl _ _
    · exact frameOn_refl _ _
    · exact liftE_frame (joinH_frame _ _ _ _ le_rfl)
  rw [if_neg e11]
  by_cases e12 : ty = "concat"
  · rw [if_pos e12]
    rcases addrs with _ | ⟨a, rest⟩
    · exact frameOn_refl _ _
    · exact allocE_frame _
  rw [if_neg e12]
  by_cases e13 : ty = "vlookup"
  · rw [if_pos e13]
    rcases addrs with _ | ⟨a, _ | ⟨b, rest⟩⟩
    · exact frameOn_refl _ _
    · exact frameOn_refl _ _
    · exact liftE_frame (vlookupH_frame _ _ _ _ le_rfl)
  rw [if_neg e13]
  by_cases e14 : ty = "diff"
  · rw [if_pos e14]
    rcases addrs with _ | ⟨a, _ | ⟨b, rest⟩⟩
    · exact frameOn_refl _ _
    · exact frameOn_refl _ _
    · exact allocE_frame _
  rw [if_neg e14]
  by_cases e15 : ty = "reconcile"
  · rw [if_pos e15]
    rcases addrs with _ | ⟨a, _ | ⟨b, rest⟩⟩
    · exact frameOn_refl _ _
    · exact frameOn_refl _ _
    · exact allocE_frame _
  rw [if_neg e15]
  by_cases e16 : ty = "code"
  · exact absurd e16 hc
  rw [if_neg e16]
  by_cases e17 : ty = "ai_agent"
  · rw [if_pos e17]
    rcases addrs with _ | ⟨a, rest⟩
    · exact frameOn_refl _ _
    · exact liftE_frame (aiAgentH_frame _ _ _ _ le_rfl)
  rw [if_neg e17]
  by_cases e18 : ty = "output" ∨ ty = "output_csv"
  · rw [if_pos e18]
    rcases addrs with _ | ⟨a, rest⟩
    · exact frameOn_refl _ _
    · exact frameOn_refl _ _
  rw [if_neg e18]
  exact frameOn_refl _ _

theorem dget_dset_self {α : Type} (d : List (String × α)) (k : String) (v : α) :
    dget (dset d k v) k = some v := by
  induction d with
  | nil => simp [dset, dget]
  | cons p d ih =>
      obtain ⟨k', v'⟩ := p
      by_cases h : k' = k <;> simp [dset, dget, h, ih]

theorem dget_dset_ne {α : Type} (d : List (String × α)) (k k' : String) (v : α)
    (h : k ≠ k') : dget (dset d k v) k' = dget d k' := by
  induction d with
  | nil => simp [dset, dget, h]
  | cons p d ih =>
      obtain ⟨k0, v0⟩ := p
      by_cases h0 : k0 = k
      · subst h0
        simp [dset, dget, h]
      · simp [dset, dget, h0, ih]

theorem isSome_dget_dset {α : Type} (d : List (String × α)) (k k' : String) (v : α) :
    (dget (dset d k v) k').isSome ↔ (k' = k ∨ (dget d k').isSome) := by
  by_cases h : k = k'
  · subst h; simp [dget_dset_self]
  · rw [dget_dset_ne d k k' v h]
    simp [Ne.symm h]

theorem dget_foldl_const {β α : Type} (key : β → String) (v : α) (l : List β)
    (d : List (String × α)) (k : String) :
    dget (l.foldl (fun d' n => dset d' (key n) v) d) k =
      if k ∈ l.map key then some v else dget d k := by
  induction l generalizing d with
  | nil => simp
  | cons n l ih =>
      simp only [List.foldl_cons, List.map_cons, List.mem_cons]
      rw [ih]
      by_cases hk : k ∈ l.map key
      · simp [hk]
      · by_cases he : k = key n
        · simp [hk, he, dget_dset_self]
        · simp [hk, he, dget_dset_ne _ _ _ _ (Ne.symm he)]

theorem isSome_dget_foldl {β α : Type} (key : β → String) (f : β → α) (l : List β)
    (d : List (String × α)) (k : String) :
    (dget (l.foldl (fun d' n => dset d' (key n) (f n)) d) k).isSome ↔
      (k ∈ l.map key ∨ (dget d k).isSome) := by
  induction l generalizing d with
  | nil => simp
  | cons n l ih =>
      simp only [List.foldl_cons, List.map_cons, List.mem_cons]
      rw [ih, isSome_dget_dset]
      tauto

/-- dispatchOf abbreviates the dispatcher call made by `processNode`. -/
def dispatchOf (env : Env) (fm : List (String × String)) (edges : List Edge)
    (nid : String) (node : Node) (st : RState) : Except String (Option Table) :=
  executeNodeByType env fm node.type node.config (collectInputs edges st.results nid)

theorem processNode_error_eq {env fm edges nid node st m}
    (hD : dispatchOf env fm edges nid node st = .error m) :
    (processNode env fm edges nid node st).1.status = dset st.status nid .error ∧
    (processNode env fm edges nid node st).1.nres = dset st.nres nid (.err m) ∧
    (processNode env fm edges nid node st).2 = some m := by
  unfold processNode
  unfold dispatchOf at hD
  dsimp only [stLog]
  rw [hD]
  exact ⟨rfl, rfl, rfl⟩

theorem processNode_ok_none_eq {env fm edges nid node st}
    (hD : dispatchOf env fm edges nid node st = .ok none) :
    (processNode env fm edges nid node st).1.status = dset st.status nid .success ∧
    (processNode env fm edges nid node st).1.nres = st.nres ∧
    (processNode env fm edges nid node st).2 = none := by
  unfold processNode
  unfold dispatchOf at hD
  dsimp only [stLog]
  rw [hD]
  exact ⟨rfl, rfl, rfl⟩

theorem processNode_ok_some_eq {env fm edges nid node st t}
    (hD : dispatchOf env fm edges nid node st = .ok (some t)) :
    (processNode env fm edges nid node st).1.status = dset st.status nid .success ∧
    (processNode env fm edges nid node st).1.nres = dset st.nres nid (.ok (previewOf t)) ∧
    (processNode env fm edges nid node st).2 = none := by
  unfold processNode
  unfold dispatchOf at hD
  dsimp only [stLog]
  rw [hD]
  dsimp only
  split <;> exact ⟨rfl, rfl, rfl⟩

theorem runLoop_error_spec (env : Env) (fm : List (String × String)) (edges : List Edge)
    (nmap : List (String × Node)) (ids : List String)
    (hmap : ∀ k, (dget nmap k).isSome ↔ k ∈ ids) :
    ∀ (ord : List String) (st st' : RState) (m : String),
    (∀ n, n ∈ ids ↔ (dget st.status n).isSome) →
    (∀ n, n ∈ ids → dget st.status n = some .success ∨ dget st.status n = some .pending) →
    (∀ n r, dget st.nres n = some r → ∃ p, r = NodeResult.ok p) →
    runLoop env fm edges nmap ord st = (st', some m) →
    ∃ pre nid rest, ord = pre ++ nid :: rest ∧ nid ∈ ids ∧
      dget st'.status nid = some .error ∧
      dget st'.nres nid = some (.err m) ∧
      (∀ n, n ∈ ids → n ≠ nid →
        (dget st'.status n = some .success ↔ (dget st.status n = some .success ∨ n ∈ pre)) ∧
        (dget st'.status n = some .success ∨ dget st'.status n = some .pending)) ∧
      (∀ n r, n ≠ nid → dget st'.nres n = some r → ∃ p, r = NodeResult.ok p) := by
  intro ord
  induction ord with
  | nil =>
      intro st st' m _ _ _ hrun
      simp [runLoop] at hrun
  | cons nid0 rest0 ih =>
      intro st st' m hkeys hst hnres hrun
      rw [runLoop] at hrun
      cases hnm : dget nmap nid0 with
      | none =>
          rw [hnm] at hrun
          have hnid0 : nid0 ∉ ids := by
            intro hmem
            have := (hmap nid0).2 hmem
            rw [hnm] at this
            simp at this
          obtain ⟨pre, nid, rest, hord, hnid, hs1, hs2, hs3, hs4⟩ :=
            ih st st' m hkeys hst hnres hrun
          refine ⟨nid0 :: pre, nid, rest, by rw [hord]; rfl, hnid, hs1, hs2, ?_, hs4⟩
          intro n hn hne
          refine ⟨?_, (hs3 n hn hne).2⟩
          rw [(hs3 n hn hne).1]
          have : n ≠ nid0 := fun e => hnid0 (e ▸ hn)
          simp [this]
      | some node =>
          rw [hnm] at hrun
          dsimp only at hrun
          have hnid0 : nid0 ∈ ids := (hmap nid0).1 (by rw [hnm]; rfl)
          cases hD : dispatchOf env fm edges nid0 node st with
          | error m0 =>
              obtain ⟨hps, hpn, hp2⟩ := processNode_error_eq hD
              rw [hp2] at hrun
              dsimp only at hrun
              obtain ⟨he1, he2⟩ : st' = (processNode env fm edges nid0 node st).1 ∧ m = m0 := by
                cases hrun; exact ⟨rfl, rfl⟩
              subst he1; subst he2
              refine ⟨[], nid0, rest0, rfl, hnid0, ?_, ?_, ?_, ?_⟩
              · rw [hps, dget_dset_self]
              · rw [hpn, dget_dset_self]
              · intro n hn hne
                rw [hps, dget_dset_ne _ _ _ _ (Ne.symm hne)]
                constructor
                · simp
                · exact hst n hn
              · intro n r hne hr
                rw [hpn, dget_dset_ne _ _ _ _ (Ne.symm hne)] at hr
                exact hnres n r hr
          | ok r0 =>
              set st1 := (processNode env fm edges nid0 node st).1 with hst1def
              have hstat : st1.status = dset st.status nid0 .success := by
                cases r0 with
                | none => exact (processNode_ok_none_eq hD).1
                | some t => exact (processNode_ok_some_eq hD).1
              have hnres1 : st1.nres = st.nres ∨
                  ∃ t, st1.nres = dset st.nres nid0 (.ok (previewOf t)) := by
                cases r0 with
                | none => exact Or.inl (processNode_ok_none_eq hD).2.1
                | some t => exact Or.inr ⟨t, (processNode_ok_some_eq hD).2.1⟩
              have hr1 : (processNode env fm edges nid0 node st).2 = none := by
                cases r0 with
                | none => exact (processNode_ok_none_eq hD).2.2
                | some t => exact (processNode_ok_some_eq hD).2.2
              rw [hr1] at hrun
              dsimp only at hrun
              have hkeys1 : ∀ n, n ∈ ids ↔ (dget st1.status n).isSome := by
                intro n
                rw [hstat, isSome_dget_dset]
                constructor
                · intro hn
                  by_cases he : n = nid0
                  · exact Or.inl he
                  · exact Or.inr ((hkeys n).1 hn)
                · rintro (he | hs)
                  · exact he ▸ hnid0
                  · exact (hkeys n).2 hs
              have hst1 : ∀ n, n ∈ ids →
                  dget st1.status n = some .success ∨ dget st1.status n = some .pending := by
                intro n hn
                rw [hstat]
                by_cases he : n = nid0
                · subst he; rw [dget_dset_self]; exact Or.inl rfl
                · rw [dget_dset_ne _ _ _ _ (Ne.symm he)]; exact hst n hn
              have hnres1' : ∀ n r, dget st1.nres n = some r → ∃ p, r = NodeResult.ok p := by
                intro n r hr
                rcases hnres1 with he | ⟨t, he⟩
                · rw [he] at hr; exact hnres n r hr
                · rw [he] at hr
                  by_cases hne : n = nid0
                  · subst hne; rw [dget_dset_self] at hr
                    exact ⟨previewOf t, by cases hr; rfl⟩
                  · rw [dget_dset_ne _ _ _ _ (Ne.symm hne)] at hr; exact hnres n r hr
              obtain ⟨pre, nid, rest, hord, hnid, hs1, hs2, hs3, hs4⟩ :=
                ih st1 st' m hkeys1 hst1 hnres1' hrun
              refine ⟨nid0 :: pre, nid, rest, by rw [hord]; rfl, hnid, hs1, hs2, ?_, hs4⟩
              intro n hn hne
              refine ⟨?_, (hs3 n hn hne).2⟩
              rw [(hs3 n hn hne).1, hstat]
              by_cases he : n = nid0
              · subst he
                rw [dget_dset_self]
                simp
              · rw [dget_dset_ne _ _ _ _ (Ne.symm he)]
                simp [he]

/-- initialState is the runner's state before the first node: no results,
no logs, every declared node `pending`. -/
def initialState (g : Graph) : RState :=
  { results := [], logs := [],
    status := g.nodes.foldl (fun d n => dset d n.id .pending) [],
    nres := [], outFile := none, preview := none, saves := 0 }

theorem initialState_status (g : Graph) (n : String) :
    dget (initialState g).status n =
      if n ∈ graphIds g then some Status.pending else none := by
  unfold initialState graphIds
  dsimp only
  rw [dget_foldl_const]
  simp [dget]

theorem executeWorkflow_eq (env : Env) (g : Graph) (fm : List (String × String)) :
    executeWorkflow env g fm =
      match runLoop env fm g.edges (g.nodes.foldl (fun d n => dset d n.id n) [])
          (topoOrder g) (initialState g) with
      | (st, none) =>
          { success := true, error := none, output_file := st.outFile,
            preview := st.preview, logs := st.logs,
            node_status := st.status, node_results := st.nres }
      | (st, some m) =>
          { success := false, error := some m, output_file := none,
            preview := none, logs := st.logs,
            node_status := st.status, node_results := st.nres } := rfl

/-- C1: on any run whose report is a failure (`success = false`), there is
a single failing node: the topological order splits as `pre ++ nid ::
rest`; the failing node is marked `error` and its message is both the
report's `error` and its `node_results` entry; every other declared node
is `success` exactly when it lies in the completed prefix `pre` and
`pending` otherwise (so scheduling stopped at the failure); and every
non-failing node's `node_results` entry — the results the completed nodes
recorded — is a serialized table, never an error.  `executeWorkflow` is a
total function: the failure is a value-level report, not an exception. -/
theorem engine_fail_fast (env : Env) (g : Graph) (fm : List (String × String))
    (hfail : (executeWorkflow env g fm).success = false) :
    ∃ msg nid pre rest,
      (executeWorkflow env g fm).error = some msg ∧
      topoOrder g = pre ++ nid :: rest ∧
      nid ∈ graphIds g ∧
      dget (executeWorkflow env g fm).node_status nid = some .error ∧
      dget (executeWorkflow env g fm).node_results nid = some (.err msg) ∧
      (∀ n, n ∈ graphIds g → n ≠ nid →
        (dget (executeWorkflow env g fm).node_status n = some .success ↔ n ∈ pre) ∧
        (dget (executeWorkflow env g fm).node_status n = some .success ∨
         dget (executeWorkflow env g fm).node_status n = some .pending)) ∧
      (∀ n r, n ≠ nid → dget (executeWorkflow env g fm).node_results n = some r →
        ∃ p, r = NodeResult.ok p) := by
  rcases hrun : runLoop env fm g.edges (g.nodes.foldl (fun d n => dset d n.id n) [])
      (topoOrder g) (initialState g) with ⟨st, r⟩
  have hE := executeWorkflow_eq env g fm
  rw [hrun] at hE
  cases r with
  | none => rw [hE] at hfail; simp at hfail
  | some m =>
      rw [hE] at hfail ⊢
      dsimp only
      have hmap : ∀ k, (dget (g.nodes.foldl (fun d n => dset d n.id n) []) k).isSome ↔
          k ∈ graphIds g := by
        intro k
        rw [isSome_dget_foldl]
        simp [graphIds, dget]
      obtain ⟨pre, nid, rest, hord, hnid, hs1, hs2, hs3, hs4⟩ :=
        runLoop_error_spec env fm g.edges _ (graphIds g) hmap (topoOrder g)
          (initialState g) st m
          (by intro n; rw [initialState_status]; by_cases hn : n ∈ graphIds g <;> simp [hn])
          (by intro n hn; rw [initialState_status, if_pos hn]; exact Or.inr rfl)
          (by intro n r' hr; simp [initialState, dget] at hr)
          hrun
      refine ⟨m, nid, pre, rest, rfl, hord, hnid, hs1, hs2, ?_, hs4⟩
      intro n hn hne
      obtain ⟨hiff, hsp⟩ := hs3 n hn hne
      refine ⟨?_, hsp⟩
      rw [hiff, initialState_status, if_pos hn]
      simp

/-- envW is a concrete environment for the witness runs: one spreadsheet
`f1` with a single numeric column, a constant-reply chat oracle, fixed
clock and uuid streams. -/
def envW : Env :=
  { readExcel := fun id _ => if id = "f1" then some ⟨["x"], [[.num 2], [.num 1]]⟩ else none,
    readCsv := fun _ _ => none,
    aiCall := fun _ => .ok "R",
    codeExec := fun _ _ => .error "code",
    codeExecH := fun _ _ h => (h, .error "code"),
    regexReplace := fun _ _ s => s,
    regexExtract := fun _ _ => none,
    toDatetime := fun v => v,
    datePart := fun _ _ => .null,
    dateShift := fun _ _ v => v,
    times := fun _ => "00:00:00",
    uuids := fun _ => "u" }

/-- gCycle is a two-node graph forming a cycle. -/
def gCycle : Graph :=
  { nodes := [{ id := "A", type := "transform" }, { id := "B", type := "transform" }],
    edges := [⟨"A", "B"⟩, ⟨"B", "A"⟩] }

/-- gArity is a graph whose join node has a single inbound edge (spec
scenario 5), followed by an output node. -/
def gArity : Graph :=
  { nodes := [{ id := "S", type := "source", config := { file_id := some "f1" } },
              { id := "J", type := "join", config := { onKeys := some ["x"] } },
              { id := "O", type := "output" }],
    edges := [⟨"S", "J"⟩, ⟨"J", "O"⟩] }

/-- gPlain is a single well-formed node. -/
def gPlain : Graph :=
  { nodes := [{ id := "A", type := "transform" }], edges := [] }

/-- gDangling is gPlain plus two edges whose other endpoint is not a
declared node. -/
def gDangling : Graph :=
  { nodes := [{ id := "A", type := "transform" }],
    edges := [⟨"A", "ghost"⟩, ⟨"ghost2", "A"⟩] }

/-- gMystery is a single node of an unrecognized type. -/
def gMystery : Graph :=
  { nodes := [{ id := "M", type := "mystery" }], edges := [] }

/-- gSortMissing is spec scenario 6: a source feeding a transform whose
`sort_by` names an absent column. -/
def gSortMissing : Graph :=
  { nodes := [{ id := "S", type := "source", config := { file_id := some "f1" } },
              { id := "T", type := "transform", config := { sort_by := some "nope" } }],
    edges := [⟨"S", "T"⟩] }

/-- C1 witness: the arity-failure run (spec scenario 5) instantiates the
fail-fast theorem. -/
theorem engine_fail_fast_witness :
    ∃ msg nid pre rest,
      (executeWorkflow envW gArity []).error = some msg ∧
      topoOrder gArity = pre ++ nid :: rest ∧
      nid ∈ graphIds gArity ∧
      dget (executeWorkflow envW gArity []).node_status nid = some .error ∧
      dget (executeWorkflow envW gArity []).node_results nid = some (.err msg) ∧
      (∀ n, n ∈ graphIds gArity → n ≠ nid →
        (dget (executeWorkflow envW gArity []).node_status n = some .success ↔ n ∈ pre) ∧
        (dget (executeWorkflow envW gArity []).node_status n = some .success ∨
         dget (executeWorkflow envW gArity []).node_status n = some .pending)) ∧
      (∀ n r, n ≠ nid → dget (executeWorkflow envW gArity []).node_results n = some r →
        ∃ p, r = NodeResult.ok p) :=
  engine_fail_fast envW gArity [] (by decide)

/-- C2 counterexample: a graph that is a pure two-node cycle — a
GraphShape defect — runs to a SUCCESSFUL report with no error recorded
and both nodes left pending: the claimed pre-execution validation failure
does not happen. -/
theorem graphshape_cycle_unreported :
    (executeWorkflow envW gCycle []).success = true ∧
    (executeWorkflow envW gCycle []).error = none ∧
    (executeWorkflow envW gCycle []).node_status = [("A", .pending), ("B", .pending)] := by
  exact ⟨by decide, by decide, by decide⟩

/-- C2 amended: there is no pre-execution graph validation.  Arity is
checked only for the four binary operators and only when the node
executes (raising the source's Chinese arity message); an edge with an
undeclared endpoint is silently ignored (the run behaves exactly as if
the edge were absent); and a cyclic subgraph is silently skipped — its
nodes stay `pending` and the run reports success (shown by the
counterexample).  Spec scenario 5 (join with one inbound edge) does fail
the run, at execution time. -/
theorem graphshape_checks_amended :
    (∀ env fm cfg ins, ins.length < 2 →
      executeNodeByType env fm "join" cfg ins = .error "合并节点需要至少两个输入" ∧
      executeNodeByType env fm "vlookup" cfg ins = .error "VLOOKUP需要两个输入" ∧
      executeNodeByType env fm "diff" cfg ins = .error "对比需要两个输入" ∧
      executeNodeByType env fm "reconcile" cfg ins = .error "对账核算需要两个输入：明细表和汇总表") ∧
    executeWorkflow envW gDangling [] = executeWorkflow envW gPlain [] ∧
    ((executeWorkflow envW gArity []).success = false ∧
     dget (executeWorkflow envW gArity []).node_status "J" = some .error ∧
     dget (executeWorkflow envW gArity []).node_status "O" = some .pending) := by
  refine ⟨?_, by decide, by decide, by decide, by decide⟩
  intro env fm cfg ins hlen
  match ins with
  | [] => exact ⟨rfl, rfl, rfl, rfl⟩
  | [t] => exact ⟨rfl, rfl, rfl, rfl⟩
  | a :: b :: rest => exact absurd hlen (by simp)

/-- C2 amended witness: the arity part instantiated at one input. -/
theorem graphshape_checks_amended_witness :
    executeNodeByType envW [] "join" {} [⟨["x"], []⟩] = .error "合并节点需要至少两个输入" :=
  (graphshape_checks_amended.1 envW [] {} [⟨["x"], []⟩] (by decide)).1

/-- C5 counterexample: with `selected_columns = ["nope"]` on a table with
column `a`, the output keeps `a` — a column not among the selected names —
because the source skips the selection entirely when no selected name
exists, instead of keeping only the (empty) surviving selection. -/
theorem transform_select_all_missing_counterexample :
    (executeTransform ⟨["a"], [[.num 1]]⟩ { selected_columns := ["nope"] }).map Table.cols =
      .ok ["a"] ∧
    "a" ∉ ({ selected_columns := ["nope"] } : Config).selected_columns := by
  exact ⟨by decide, by decide⟩

/-- C5 amended: the transform applies filter, drop, calculations, rename,
select, sort in that fixed order; `drop_columns` drops exactly the
present names and ignores missing ones without error; a calculation whose
formula does not evaluate over every row is silently skipped; and when at
least one selected name survives, the selection keeps exactly the
surviving selected columns in config order — but when none survives the
selection step is skipped and all columns are kept (the corrected
behaviour witnessed by the counterexample). -/
theorem transform_stages_amended :
    (∀ t cfg, executeTransform t cfg =
      (filterStep cfg t).map
        (fun u => sortStep cfg (selectStep cfg (renameStep cfg (calcStep cfg (dropStep cfg u)))))) ∧
    (∀ t cfg, (dropStep cfg t).cols = t.cols.filter (fun c => c ∉ cfg.drop_columns)) ∧
    (∀ t c, t.rows.mapM (fun r => evalExpr t r c.formula) = none → calcStep1 t c = t) ∧
    (∀ t cfg, cfg.selected_columns.filter (· ∈ t.cols) ≠ [] →
      (selectStep cfg t).cols = cfg.selected_columns.filter (· ∈ t.cols)) := by
  refine ⟨?_, ?_, ?_, ?_⟩
  · intro t cfg
    unfold executeTransform
    cases filterStep cfg t <;> rfl
  · intro t cfg
    unfold dropStep
    split
    · rename_i hd
      rw [hd]
      simp
    · rfl
  · intro t c hfail
    unfold calcStep1
    split
    · rfl
    · rw [hfail]
  · intro t cfg hne
    unfold selectStep
    split
    · rename_i hsel
      rw [hsel] at hne
      simp at hne
    · rw [if_neg hne]
      rfl

/-- C5 amended witness: the stages and silent behaviours at concrete
inputs (a calculation referring to a missing column is skipped; a
partially-missing selection keeps the surviving column). -/
theorem transform_stages_amended_witness :
    calcStep1 ⟨["a"], [[.num 1]]⟩ ⟨"t", .col "missing"⟩ = ⟨["a"], [[.num 1]]⟩ ∧
    (selectStep { selected_columns := ["b", "zz"] } ⟨["a", "b"], [[.num 1, .num 2]]⟩).cols = ["b"] :=
  ⟨transform_stages_amended.2.2.1 ⟨["a"], [[.num 1]]⟩ ⟨"t", .col "missing"⟩ (by decide),
   transform_stages_amended.2.2.2 ⟨["a", "b"], [[.num 1, .num 2]]⟩ { selected_columns := ["b", "zz"] } (by decide)⟩

/-- C6 counterexample: running spec scenario 6 — a source feeding a
transform with `sort_by = "nope"` — ends with BOTH nodes `success` and an
overall successful report: the transform does not error at all, contrary
to the claimed SchemaError. -/
theorem transform_sort_missing_counterexample :
    (executeWorkflow envW gSortMissing []).success = true ∧
    dget (executeWorkflow envW gSortMissing []).node_status "T" = some .success ∧
    dget (executeWorkflow envW gSortMissing []).node_status "S" = some .success := by
  exact ⟨by decide, by decide, by decide⟩

/-- C6 amended: a `sort_by` naming an absent column is silently skipped
(`if sort_by and sort_by in df.columns`): the sort stage is the identity,
the node succeeds, and the upstream source stays `success` — there is no
SchemaError for this stage. -/
theorem transform_sort_skip_amended :
    (∀ cfg t c, cfg.sort_by = some c → c ∉ t.cols → sortStep cfg t = t) ∧
    ((executeWorkflow envW gSortMissing []).success = true ∧
     dget (executeWorkflow envW gSortMissing []).node_status "T" = some .success ∧
     dget (executeWorkflow envW gSortMissing []).node_results "T" =
       some (.ok ⟨["x"], [[.num 2], [.num 1]], 2⟩)) := by
  refine ⟨?_, by decide, by decide, by decide⟩
  intro cfg t c hc hmem
  unfold sortStep
  rw [hc]
  dsimp only
  by_cases he : c = ""
  · rw [if_pos he]
  · rw [if_neg he, if_neg hmem]

/-- C6 amended witness: the sort-skip at a concrete table and config. -/
theorem transform_sort_skip_amended_witness :
    sortStep { sort_by := some "nope" } ⟨["x"], [[.num 2], [.num 1]]⟩ = ⟨["x"], [[.num 2], [.num 1]]⟩ :=
  transform_sort_skip_amended.1 { sort_by := some "nope" } ⟨["x"], [[.num 2], [.num 1]]⟩ "nope"
    rfl (by decide)

theorem colIdx_lt {t : Table} {c : String} {j : Nat} (h : t.colIdx c = some j) :
    j < t.cols.length :=
  (List.findIdx?_eq_some_iff_findIdx_eq.1 h).1

theorem getElem?_zip_eq {α β : Type} (l : List α) (m : List β) (i : Nat) :
    (l.zip m)[i]? = match l[i]?, m[i]? with
      | some a, some b => some (a, b)
      | _, _ => none := by
  induction l generalizing m i with
  | nil => simp
  | cons a l ih =>
      cases m with
      | nil => simp
      | cons b m =>
          cases i with
          | zero => simp
          | succ i => simpa using ih m i

theorem setColTable_cols (t : Table) (c : String) (vals : List Value) :
    (setColTable t c vals).cols = if (t.colIdx c).isSome then t.cols else t.cols ++ [c] := by
  unfold setColTable
  cases h : t.colIdx c <;> simp

theorem setColTable_some_eq {t : Table} {c : String} {j : Nat} (vals : List Value)
    (hc : t.colIdx c = some j) :
    (setColTable t c vals).cols = t.cols ∧
    (setColTable t c vals).rows = (t.rows.zip vals).map (fun p => p.1.set j p.2) := by
  unfold setColTable
  rw [hc]
  exact ⟨rfl, rfl⟩

theorem setColTable_none_eq {t : Table} {c : String} (vals : List Value)
    (hc : t.colIdx c = none) :
    (setColTable t c vals).cols = t.cols ++ [c] ∧
    (setColTable t c vals).rows = (t.rows.zip vals).map (fun p => p.1 ++ [p.2]) := by
  unfold setColTable
  rw [hc]
  exact ⟨rfl, rfl⟩

theorem colIdx_eq_cols_findIdx (t : Table) (c : String) :
    t.colIdx c = t.cols.findIdx? (· = c) := rfl

theorem setColTable_target_cell (t : Table) (c : String) (vals : List Value)
    (hu : ∀ r ∈ t.rows, r.length = t.cols.length) (hv : vals.length = t.rows.length)
    {i : Nat} (hi : i < t.rows.length) :
    getCell (setColTable t c vals) ((setColTable t c vals).rows.getD i []) c =
      vals.getD i .null := by
  have hrow : t.rows[i]? = some (t.rows.getD i []) := by
    rw [List.getD_eq_getElem?_getD]
    rw [List.getElem?_eq_some.2 ⟨hi, rfl⟩]
    rfl
  have hval : vals[i]? = some (vals.getD i .null) := by
    rw [List.getD_eq_getElem?_getD]
    rw [List.getElem?_eq_some.2 ⟨hv ▸ hi, rfl⟩]
    rfl
  have hmem : t.rows.getD i [] ∈ t.rows := by
    rw [List.getD_eq_getElem?_getD, List.getElem?_eq_some.2 ⟨hi, rfl⟩]
    exact List.getElem_mem hi
  have hlen : (t.rows.getD i []).length = t.cols.length := hu _ hmem
  unfold getCell
  cases hc : t.colIdx c with
  | some j =>
      obtain ⟨hcols, hrows⟩ := setColTable_some_eq vals hc
      have hj : j < t.cols.length := colIdx_lt hc
      have hcx : (setColTable t c vals).colIdx c = some j := by
        rw [colIdx_eq_cols_findIdx, hcols]
        exact hc
      rw [hcx]
      have hzr : (setColTable t c vals).rows[i]? =
          some ((t.rows.getD i []).set j (vals.getD i .null)) := by
        rw [hrows, List.getElem?_map, getElem?_zip_eq, hrow, hval]
        rfl
      rw [List.getD_eq_getElem?_getD, hzr]
      dsimp only [Option.getD]
      rw [List.getD_eq_getElem?_getD, List.getElem?_set_self (by omega)]
      rfl
  | none =>
      obtain ⟨hcols, hrows⟩ := setColTable_none_eq vals hc
      have hcx : (setColTable t c vals).colIdx c = some t.cols.length := by
        rw [colIdx_eq_cols_findIdx, hcols, List.findIdx?_append]
        rw [colIdx_eq_cols_findIdx] at hc
        rw [hc]
        simp
      rw [hcx]
      have hzr : (setColTable t c vals).rows[i]? =
          some ((t.rows.getD i []) ++ [vals.getD i .null]) := by
        rw [hrows, List.getElem?_map, getElem?_zip_eq, hrow, hval]
        rfl
      rw [List.getD_eq_getElem?_getD, hzr]
      dsimp only [Option.getD]
      rw [List.getD_eq_getElem?_getD, List.getElem?_append, if_neg (by omega)]
      rw [hlen]
      simp

theorem setColTable_rows_length (t : Table) (c : String) (vals : List Value)
    (hv : vals.length = t.rows.length) :
    (setColTable t c vals).rows.length = t.rows.length := by
  unfold setColTable
  cases t.colIdx c <;> simp [List.length_zip, hv]

/-- C8 counterexample: with `row_limit = 1` in the config and a 3-row
table, the operator still processes (and returns) 3 rows — the third
row's target cell holds the model reply — because the source computes
`min(len(df), 20)` and never reads `row_limit`. -/
theorem llm_row_limit_counterexample :
    (executeAiAgent envW ⟨["q"], [[.num 1], [.num 2], [.num 3]]⟩
        { prompt := "hi", row_limit := some 1 }).map (fun t => t.rows.length) = .ok 3 ∧
    ({ prompt := "hi", row_limit := some 1 } : Config).row_limit = some 1 ∧
    (executeAiAgent envW ⟨["q"], [[.num 1], [.num 2], [.num 3]]⟩
        { prompt := "hi", row_limit := some 1 }).map
      (fun t => (t.rows.getD 2 []).getD 1 .null) = .ok (.str "R") := by
  exact ⟨by decide, by decide, by decide⟩

/-- C8 amended: for a uniform input table and non-empty prompt, the
operator succeeds and processes exactly the first `min(len(df), 20)` rows
— the config's `row_limit` key is ignored entirely (changing it cannot
change the result) — issuing one chat call per processed row in order,
and storing the reply, or `Error: <message>` on a per-row failure, in
that row's target cell; a row failure never fails the node. -/
theorem executeAiAgent_row_limit_irrel (env : Env) (df : Table) (cfg : Config)
    (rl : Option Nat) :
    executeAiAgent env df { cfg with row_limit := rl } = executeAiAgent env df cfg := rfl

theorem llm_row_amended (env : Env) (df : Table) (cfg : Config)
    (hp : cfg.prompt ≠ "")
    (hu : ∀ r ∈ df.rows, r.length = df.cols.length) :
    ∃ out, executeAiAgent env df cfg = .ok out ∧
      out.rows.length = min df.rows.length 20 ∧
      (∀ rl, executeAiAgent env df { cfg with row_limit := rl } = executeAiAgent env df cfg) ∧
      (∀ i, i < min df.rows.length 20 →
        getCell out (out.rows.getD i []) cfg.target_column =
          aiCell (env.aiCall (buildRowPrompt df cfg.prompt (df.rows.getD i [])))) := by
  have hmain : executeAiAgent env df cfg =
      .ok (setColTable ⟨df.cols, df.rows.take (min df.rows.length 20)⟩ cfg.target_column
        ((df.rows.take (min df.rows.length 20)).map
          (fun r => aiCell (env.aiCall (buildRowPrompt df cfg.prompt r))))) := by
    unfold executeAiAgent
    rw [if_neg hp]
  refine ⟨_, hmain, ?_, fun rl => executeAiAgent_row_limit_irrel env df cfg rl, ?_⟩
  · have h1 : (df.rows.take (min df.rows.length 20)).length = min df.rows.length 20 := by
      rw [List.length_take]
      omega
    rw [setColTable_rows_length]
    · exact h1
    · simp
  · intro i hi
    have hheadu : ∀ r ∈ df.rows.take (min df.rows.length 20), r.length = df.cols.length :=
      fun r hr => hu r (List.mem_of_mem_take hr)
    have h1 : (df.rows.take (min df.rows.length 20)).length = min df.rows.length 20 := by
      rw [List.length_take]; omega
    have hcell := setColTable_target_cell
      ⟨df.cols, df.rows.take (min df.rows.length 20)⟩ cfg.target_column
      ((df.rows.take (min df.rows.length 20)).map
        (fun r => aiCell (env.aiCall (buildRowPrompt df cfg.prompt r))))
      hheadu (by simp) (by rw [h1]; exact hi)
    rw [hcell]
    have htake : (df.rows.take (min df.rows.length 20))[i]? = some (df.rows.getD i []) := by
      rw [List.getElem?_take, if_pos hi, List.getD_eq_getElem?_getD]
      rw [List.getElem?_eq_some.2 ⟨by omega, rfl⟩]
      rfl
    rw [List.getD_eq_getElem?_getD, List.getElem?_map, htake]
    rfl

/-- C8 amended witness: a concrete 2-row run processed in full. -/
theorem llm_row_amended_witness :
    ∃ out, executeAiAgent envW ⟨["q"], [[.num 1], [.num 2]]⟩ { prompt := "hi" } = .ok out ∧
      out.rows.length = 2 := by
  obtain ⟨out, h1, h2, _, _⟩ := llm_row_amended envW ⟨["q"], [[.num 1], [.num 2]]⟩
    { prompt := "hi" } (by decide) (by decide)
  exact ⟨out, h1, by simpa using h2⟩

/-- hW is a one-frame heap for the frame-theorem witness. -/
def hW : Heap := [⟨["a"], [[.num 1]]⟩]

/-- C9: executing any operator tag other than `code` never changes an
existing frame of the heap: every operator either writes only on copies
it allocated itself (`df.copy()` first, then `df[col] = ...`) or builds
fresh frames, so a node's stored result is never mutated by a downstream
node's execution.  The `code` node (excluded) runs an arbitrary user
script and carries no such guarantee. -/
theorem operators_no_input_mutation (env : Env) (fm : List (String × String))
    (ty : String) (cfg : Config) (addrs : List Nat) (h : Heap) (hc : ty ≠ "code") :
    ∀ i, i < h.length → ((heapExecNode env fm ty cfg addrs h).1)[i]? = h[i]? :=
  heapExecNode_frame env fm ty cfg addrs h hc

/-- C9 witness: a transform node leaves the input frame untouched. -/
theorem operators_no_input_mutation_witness :
    ((heapExecNode envW [] "transform" { drop_columns := ["a"] } [0] hW).1)[0]? = hW[0]? :=
  operators_no_input_mutation envW [] "transform" { drop_columns := ["a"] } [0] hW
    (by decide) 0 (by decide)

/-- knownNodeTypes is the closed set of type tags the dispatcher
recognizes. -/
def knownNodeTypes : List String :=
  ["source", "source_csv", "transform", "type_convert", "fill_na", "deduplicate",
   "text_process", "date_process", "group_aggregate", "pivot", "unpivot", "join",
   "concat", "vlookup", "diff", "reconcile", "code", "ai_agent", "output", "output_csv"]

/-- C10: a node whose type is not a recognized tag dispatches to `.ok
none` (no table, no error); in a run, such a node is marked `success`
with no `node_results` entry and the run continues to completion
(demonstrated on the one-node `mystery` graph). -/
theorem unknown_node_type_success :
    (∀ env fm ty cfg ins, ty ∉ knownNodeTypes →
      executeNodeByType env fm ty cfg ins = .ok none) ∧
    ((executeWorkflow envW gMystery []).success = true ∧
     dget (executeWorkflow envW gMystery []).node_status "M" = some .success ∧
     dget (executeWorkflow envW gMystery []).node_results "M" = none) := by
  refine ⟨?_, by decide, by decide, by decide⟩
  intro env fm ty cfg ins h
  have hne : ∀ s, s ∈ knownNodeTypes → ty ≠ s := fun s hs e => h (e ▸ hs)
  unfold executeNodeByType
  rw [if_neg (hne _ (by decide)), if_neg (hne _ (by decide)), if_neg (hne _ (by decide)),
      if_neg (hne _ (by decide)), if_neg (hne _ (by decide)), if_neg (hne _ (by decide)),
      if_neg (hne _ (by decide)), if_neg (hne _ (by decide)), if_neg (hne _ (by decide)),
      if_neg (hne _ (by decide)), if_neg (hne _ (by decide)), if_neg (hne _ (by decide)),
      if_neg (hne _ (by decide)), if_neg (hne _ (by decide)), if_neg (hne _ (by decide)),
      if_neg (hne _ (by decide)), if_neg (hne _ (by decide)), if_neg (hne _ (by decide))]
  rw [if_neg ?_]
  · rintro (e | e)
    · exact hne _ (by decide) e
    · exact hne _ (by decide) e

/-- C10 witness: the dispatcher at the concrete unknown tag. -/
theorem unknown_node_type_success_witness :
    executeNodeByType envW [] "mystery" {} [] = .ok none :=
  unknown_node_type_success.1 envW [] "mystery" {} [] (by decide)

theorem executeNodeByType_env_irrel (env : Env) (t u : Nat → String)
    (fm : List (String × String)) (ty : String) (cfg : Config) (ins : List Table) :
    executeNodeByType { env with times := t, uuids := u } fm ty cfg ins =
      executeNodeByType env fm ty cfg ins := rfl

theorem processNode_rel (env : Env) (t u : Nat → String) (fm : List (String × String))
    (edges : List Edge) (nid : String) (node : Node) (st1 st2 : RState)
    (hres : st1.results = st2.results) (hstat : st1.status = st2.status)
    (hnres : st1.nres = st2.nres) (hprev : st1.preview = st2.preview)
    (hsav : st1.saves = st2.saves)
    (hlog : st1.logs.map Prod.snd = st2.logs.map Prod.snd) :
    (processNode { env with times := t, uuids := u } fm edges nid node st1).2 =
      (processNode env fm edges nid node st2).2 ∧
    (processNode { env with times := t, uuids := u } fm edges nid node st1).1.results =
      (processNode env fm edges nid node st2).1.results ∧
    (processNode { env with times := t, uuids := u } fm edges nid node st1).1.status =
      (processNode env fm edges nid node st2).1.status ∧
    (processNode { env with times := t, uuids := u } fm edges nid node st1).1.nres =
      (processNode env fm edges nid node st2).1.nres ∧
    (processNode { env with times := t, uuids := u } fm edges nid node st1).1.preview =
      (processNode env fm edges nid node st2).1.preview ∧
    (processNode { env with times := t, uuids := u } fm edges nid node st1).1.saves =
      (processNode env fm edges nid node st2).1.saves ∧
    (processNode { env with times := t, uuids := u } fm edges nid node st1).1.logs.map Prod.snd =
      (processNode env fm edges nid node st2).1.logs.map Prod.snd := by
  unfold processNode
  dsimp only [stLog]
  rw [hres, executeNodeByType_env_irrel]
  cases hD : executeNodeByType env fm node.type node.config (collectInputs edges st2.results nid) with
  | error m =>
      dsimp only
      refine ⟨rfl, rfl, by rw [hstat], by rw [hnres], hprev, hsav, ?_⟩
      simp [hlog]
  | ok r =>
      cases r with
      | none =>
          dsimp only
          refine ⟨rfl, rfl, by rw [hstat], hnres, hprev, hsav, ?_⟩
          simp [hlog]
      | some tb =>
          dsimp only
          by_cases ho : node.type = "output" ∨ node.type = "output_csv"
          · rw [if_pos ho, if_pos ho]
            refine ⟨rfl, rfl, by rw [hstat], by rw [hnres], rfl, by rw [hsav], ?_⟩
            simp [hlog]
          · rw [if_neg ho, if_neg ho]
            refine ⟨rfl, rfl, by rw [hstat], by rw [hnres], hprev, hsav, ?_⟩
            simp [hlog]

theorem runLoop_rel (env : Env) (t u : Nat → String) (fm : List (String × String))
    (edges : List Edge) (nmap : List (String × Node)) :
    ∀ (ord : List String) (st1 st2 : RState),
    st1.results = st2.results → st1.status = st2.status → st1.nres = st2.nres →
    st1.preview = st2.preview → st1.saves = st2.saves →
    st1.logs.map Prod.snd = st2.logs.map Prod.snd →
    (runLoop { env with times := t, uuids := u } fm edges nmap ord st1).2 =
      (runLoop env fm edges nmap ord st2).2 ∧
    (runLoop { env with times := t, uuids := u } fm edges nmap ord st1).1.status =
      (runLoop env fm edges nmap ord st2).1.status ∧
    (runLoop { env with times := t, uuids := u } fm edges nmap ord st1).1.nres =
      (runLoop env fm edges nmap ord st2).1.nres ∧
    (runLoop { env with times := t, uuids := u } fm edges nmap ord st1).1.preview =
      (runLoop env fm edges nmap ord st2).1.preview ∧
    (runLoop { env with times := t, uuids := u } fm edges nmap ord st1).1.logs.map Prod.snd =
      (runLoop env fm edges nmap ord st2).1.logs.map Prod.snd := by
  intro ord
  induction ord with
  | nil =>
      intro st1 st2 hres hstat hnres hprev hsav hlog
      exact ⟨rfl, hstat, hnres, hprev, hlog⟩
  | cons nid rest ih =>
      intro st1 st2 hres hstat hnres hprev hsav hlog
      rw [runLoop, runLoop]
      cases hnm : dget nmap nid with
      | none => exact ih st1 st2 hres hstat hnres hprev hsav hlog
      | some node =>
          dsimp only
          obtain ⟨h2, hres', hstat', hnres', hprev', hsav', hlog'⟩ :=
            processNode_rel env t u fm edges nid node st1 st2 hres hstat hnres hprev hsav hlog
          cases hr : (processNode env fm edges nid node st2).2 with
          | none =>
              rw [hr] at h2
              rw [h2]
              dsimp only
              exact ih _ _ hres' hstat' hnres' hprev' hsav' hlog'
          | some m =>
              rw [hr] at h2
              rw [h2]
              dsimp only
              exact ⟨rfl, hstat', hnres', hprev', hlog'⟩

/-- C7 counterexample: two runs of the same one-node document with the
same resolver state but clocks one second apart produce different
reports — the log lines embed `datetime.now()` timestamps. -/
theorem report_timestamp_counterexample :
    executeWorkflow { envW with times := fun _ => "00:00:01" } gPlain [] ≠
      executeWorkflow envW gPlain [] := by decide

/-- reportCore is the report without its timestamp-bearing and
uuid-bearing parts: success flag, error, preview, log messages (timestamps
stripped), node statuses and node results.  `output_file` is excluded: an
unconfigured filename embeds a `uuid4` fragment. -/
def reportCore (r : Report) :
    Bool × Option String × Option TablePreview × List String ×
      List (String × Status) × List (String × NodeResult) :=
  (r.success, r.error, r.preview, r.logs.map Prod.snd, r.node_status, r.node_results)

/-- C7 amended: the report is deterministic up to the wall-clock
timestamps inside the log lines and the uuid-generated output filename:
for the same document and resolver state, runs under different clock and
uuid streams agree on success, error, preview, node_status, node_results
and on every log message (with its timestamp stripped). -/
theorem report_determinism_amended (env : Env) (t u : Nat → String) (g : Graph)
    (fm : List (String × String)) :
    reportCore (executeWorkflow { env with times := t, uuids := u } g fm) =
      reportCore (executeWorkflow env g fm) := by
  obtain ⟨h2, hstat, hnres, hprev, hlog⟩ :=
    runLoop_rel env t u fm g.edges (g.nodes.foldl (fun d n => dset d n.id n) [])
      (topoOrder g) (initialState g) (initialState g) rfl rfl rfl rfl rfl rfl
  rw [show executeWorkflow { env with times := t, uuids := u } g fm =
      (match runLoop { env with times := t, uuids := u } fm g.edges
          (g.nodes.foldl (fun d n => dset d n.id n) []) (topoOrder g) (initialState g) with
        | (st, none) =>
            { success := true, error := none, output_file := st.outFile,
              preview := st.preview, logs := st.logs,
              node_status := st.status, node_results := st.nres }
        | (st, some m) =>
            { success := false, error := some m, output_file := none,
              preview := none, logs := st.logs,
              node_status := st.status, node_results := st.nres }) from rfl,
     executeWorkflow_eq env g fm]
  rcases hr1 : runLoop { env with times := t, uuids := u } fm g.edges
      (g.nodes.foldl (fun d n => dset d n.id n) []) (topoOrder g) (initialState g) with ⟨s1, r1⟩
  rcases hr2 : runLoop env fm g.edges
      (g.nodes.foldl (fun d n => dset d n.id n) []) (topoOrder g) (initialState g) with ⟨s2, r2⟩
  rw [hr1, hr2] at h2 hstat hnres hprev hlog
  dsimp only at h2 hstat hnres hprev hlog
  rw [hr1, hr2]
  subst h2
  cases r1 with
  | none =>
      unfold reportCore
      dsimp only
      rw [hstat, hnres, hprev, hlog]
  | some m =>
      unfold reportCore
      dsimp only
      rw [hstat, hnres, hlog]

theorem mapM_option_mem {α β : Type} (f : α → Option β) :
    ∀ (l : List α) (l' : List β), l.mapM f = some l' →
      ∀ b ∈ l', ∃ a ∈ l, f a = some b := by
  intro l
  induction l with
  | nil =>
      intro l' h b hb
      rw [List.mapM_nil] at h
      have he : l' = [] := by simpa using h.symm
      subst he
      simp at hb
  | cons a l ih =>
      intro l' h b hb
      rw [List.mapM_cons] at h
      cases hfa : f a with
      | none => rw [hfa] at h; simp at h
      | some b0 =>
          rw [hfa] at h
          cases hrest : l.mapM f with
          | none => rw [hrest] at h; simp at h
          | some bs =>
              rw [hrest] at h
              have he : l' = b0 :: bs := by simpa using h.symm
              subst he
              rcases List.mem_cons.1 hb with hb0 | hbs
              · exact ⟨a, List.mem_cons_self a l, hb0 ▸ hfa⟩
              · obtain ⟨a', ha', hfa'⟩ := ih bs hrest b hbs
                exact ⟨a', List.mem_cons_of_mem a ha', hfa'⟩

theorem flatMap_eq_map_of_singleton {α β : Type} (f : α → List β) (g : α → β)
    (l : List α) (h : ∀ a ∈ l, f a = [g a]) : l.flatMap f = l.map g := by
  induction l with
  | nil => rfl
  | cons a l ih =>
      rw [List.flatMap_cons, h a (List.mem_cons_self a l), List.map_cons,
        ih (fun x hx => h x (List.mem_cons_of_mem a hx))]
      rfl

theorem filter_key_eq_self {α β : Type} [DecidableEq β] (key : α → β) (l : List α)
    (hnd : (l.map key).Nodup) (a : α) (ha : a ∈ l) :
    l.filter (fun b => key b = key a) = [a] := by
  induction l with
  | nil => cases ha
  | cons x l ih =>
      rw [List.map_cons, List.nodup_cons] at hnd
      by_cases h0 : key x = key a
      · have hax : a = x := by
          rcases List.mem_cons.1 ha with h1 | h1
          · exact h1
          · exact absurd (by rw [h0]; exact List.mem_map_of_mem key h1) hnd.1
        subst hax
        rw [List.filter_cons_of_pos (by simp)]
        have hnil : l.filter (fun b => key b = key a) = [] := by
          rw [List.filter_eq_nil_iff]
          intro b hb he
          exact hnd.1 (by
            rw [show key a = key b from (by simpa using he : key b = key a).symm]
            exact List.mem_map_of_mem key hb)
        rw [hnil]
      · have hmem : a ∈ l := by
          rcases List.mem_cons.1 ha with h1 | h1
          · exact absurd (by rw [h1]) h0
          · exact h1
        rw [List.filter_cons_of_neg (by simpa using h0)]
        exact ih hnd.2 hmem

theorem filter_key_eq_nil {α β : Type} [DecidableEq β] (key : α → β) (l : List α)
    (k : β) (hk : k ∉ l.map key) :
    l.filter (fun b => key b = k) = [] := by
  rw [List.filter_eq_nil_iff]
  intro b hb he
  exact hk (by rw [← (by simpa using he : key b = k)]; exact List.mem_map_of_mem key hb)

theorem zip_self_all {α : Type} (l : List α) (f : α → α → Bool) :
    (l.zip l).all (fun p => f p.1 p.2) = l.all (fun c => f c c) := by
  induction l with
  | nil => rfl
  | cons a l ih => simp only [List.zip_cons_cons, List.all_cons, ih]

theorem findIdx?_nodup_self (l : List String) (hnd : l.Nodup) (i : Nat) (hi : i < l.length) :
    l.findIdx? (· = l[i]) = some i := by
  rw [List.findIdx?_eq_some_iff_getElem]
  refine ⟨hi, by simp, ?_⟩
  intro j hj
  simp only [decide_eq_true_eq]
  intro he
  exact absurd (List.Nodup.getElem_inj_iff hnd |>.1 he) (by omega)

theorem findIdx?_append_of_none {l1 l2 : List String} {p : String → Bool}
    (h : l1.findIdx? p = none) :
    (l1 ++ l2).findIdx? p = (l2.findIdx? p).map (· + l1.length) := by
  rw [List.findIdx?_append, h]
  rfl

theorem findIdx?_append_of_some {l1 l2 : List String} {p : String → Bool} {i : Nat}
    (h : l1.findIdx? p = some i) :
    (l1 ++ l2).findIdx? p = some i := by
  rw [List.findIdx?_append, h]
  rfl

theorem take_ext_of_getD {k : Nat} (a b : List Value) (ha : k ≤ a.length)
    (hb : k ≤ b.length) (h : ∀ i, i < k → a.getD i .null = b.getD i .null) :
    a.take k = b.take k := by
  apply List.ext_getElem?
  intro i
  by_cases hik : i < k
  · rw [List.getElem?_take, if_pos hik, List.getElem?_take, if_pos hik]
    have h1 : a[i]? = some (a.getD i .null) := by
      rw [List.getD_eq_getElem?_getD, List.getElem?_eq_some.2 ⟨by omega, rfl⟩]
      rfl
    have h2 : b[i]? = some (b.getD i .null) := by
      rw [List.getD_eq_getElem?_getD, List.getElem?_eq_some.2 ⟨by omega, rfl⟩]
      rfl
    rw [h1, h2, h i hik]
  · rw [List.getElem?_take, if_neg hik, List.getElem?_take, if_neg hik]

theorem pdMerge_left_rows (l r : Table) (lOn rOn : List String) :
    (pdMerge l r lOn rOn "left").rows = l.rows.flatMap (fun a =>
      let ms := r.rows.filter (mergeRowMatch l r lOn rOn a)
      if ms = [] then [a ++ (mergeRKeep r lOn rOn).map (fun _ => Value.null)]
      else ms.map (fun b => a ++ mergeRightPart r lOn rOn b)) := by
  unfold pdMerge
  simp

theorem pdMerge_outer_rows (l r : Table) (lOn rOn : List String) :
    (pdMerge l r lOn rOn "outer").rows = (l.rows.flatMap (fun a =>
      let ms := r.rows.filter (mergeRowMatch l r lOn rOn a)
      if ms = [] then [a ++ (mergeRKeep r lOn rOn).map (fun _ => Value.null)]
      else ms.map (fun b => a ++ mergeRightPart r lOn rOn b))) ++
      (r.rows.filter (fun b => ¬ l.rows.any (fun a => mergeRowMatch l r lOn rOn a b))).map
        (mergeRightOnlyRow l r lOn rOn) := by
  unfold pdMerge
  simp

theorem pdMerge_cols (l r : Table) (lOn rOn : List String) (how : String) :
    (pdMerge l r lOn rOn how).cols =
      l.cols.map (fun c => if c ∈ l.cols.filter (fun c' => c' ∈ mergeRKeep r lOn rOn)
          then c ++ "_x" else c) ++
      (mergeRKeep r lOn rOn).map (fun c => if c ∈ l.cols.filter (fun c' => c' ∈ mergeRKeep r lOn rOn)
          then c ++ "_y" else c) := rfl

theorem colVals_getD (t : Table) (c : String) {i : Nat} (hi : i < t.rows.length) :
    (colVals t c).getD i .null = getCell t (t.rows.getD i []) c := by
  unfold colVals
  rw [List.getD_eq_getElem?_getD, List.getElem?_map,
    List.getElem?_eq_some.2 ⟨hi, rfl⟩, List.getD_eq_getElem?_getD,
    List.getElem?_eq_some.2 ⟨hi, rfl⟩]
  rfl

theorem coerceStrCol_cols {t : Table} {c : String} (hc : c ∈ t.cols) :
    (coerceStrCol t c).cols = t.cols := by
  unfold coerceStrCol
  rw [setColTable_cols, if_pos ?_]
  rw [colIdx_eq_cols_findIdx]
  rw [List.findIdx?_isSome]
  simp only [List.any_eq_true, decide_eq_true_eq]
  exact ⟨c, hc, rfl⟩

theorem coerceStrCol_rows_shape {t : Table} {c : String} {j : Nat}
    (hj : t.colIdx c = some j) :
    (coerceStrCol t c).rows.length = t.rows.length ∧
    (∀ L, (∀ r ∈ t.rows, r.length = L) → ∀ r ∈ (coerceStrCol t c).rows, r.length = L) := by
  unfold coerceStrCol
  obtain ⟨_, hrows⟩ := setColTable_some_eq ((colVals t c).map (fun v => .str (valueToStr v))) hj
  rw [hrows]
  constructor
  · rw [List.length_map, List.length_zip]
    simp [colVals]
  · intro L hL r' hr'
    obtain ⟨p, hp, he⟩ := List.mem_map.1 hr'
    have : p.1 ∈ t.rows := (List.of_mem_zip hp).1
    rw [← he, List.length_set]
    exact hL _ this

theorem coerceStrCol_cell {t : Table} {c : String} {j : Nat}
    (_ : t.colIdx c = some j)
    (hu : ∀ r ∈ t.rows, r.length = t.cols.length)
    {i : Nat} (hi : i < t.rows.length) :
    getCell (coerceStrCol t c) ((coerceStrCol t c).rows.getD i []) c =
      .str (valueToStr (getCell t (t.rows.getD i []) c)) := by
  unfold coerceStrCol
  rw [setColTable_target_cell t c _ hu (by simp [colVals]) hi]
  rw [List.getD_eq_getElem?_getD, List.getElem?_map]
  rw [show (colVals t c)[i]? = some ((colVals t c).getD i .null) from ?_]
  · rw [colVals_getD t c hi]
    rfl
  · rw [List.getD_eq_getElem?_getD, List.getElem?_eq_some.2 ⟨by simp [colVals]; omega, rfl⟩]
    rfl

theorem projectTable_getCell (t : Table) (cs : List String) (r : List Value) (c : String)
    (hc : c ∈ cs) :
    getCell (projectTable t cs) (cs.map (fun c' => getCell t r c')) c = getCell t r c := by
  unfold projectTable getCell Table.colIdx
  dsimp only
  have hidx : cs.findIdx? (· = c) = some (cs.findIdx (· = c)) :=
    List.findIdx?_eq_some_of_exists ⟨c, hc, by simp⟩
  obtain ⟨hlt, hp, _⟩ := List.findIdx?_eq_some_iff_getElem.1 hidx
  have hcs : cs[cs.findIdx (· = c)] = c := by simpa using hp
  rw [hidx]
  dsimp only
  rw [List.getD_eq_getElem?_getD, List.getElem?_map, List.getElem?_eq_some.2 ⟨hlt, rfl⟩]
  simp [hcs]

theorem getD_mem_of_lt {α : Type} {l : List α} {i : Nat} (d : α) (hi : i < l.length) :
    l.getD i d ∈ l := by
  rw [List.getD_eq_getElem?_getD, List.getElem?_eq_some.2 ⟨hi, rfl⟩]
  exact List.getElem_mem hi

theorem getD_eq_of_getElem? {α : Type} {l : List α} {i : Nat} {x : α} (d : α)
    (h : l[i]? = some x) : l.getD i d = x := by
  rw [List.getD_eq_getElem?_getD, h]
  rfl

/-- vlookupResolved is the post-validation body of `executeVlookup` in
the equal-key-name case: coerce both key columns, slice the lookup to
key plus return columns, left-merge. -/
theorem executeVlookup_resolved (main lkp : Table) (cfg : Config) (key : String)
    (h1 : cfg.left_key = some key) (h2 : cfg.lookup_key = none)
    (h3 : cfg.right_key = some key) (hk : key ≠ "")
    (hm1 : key ∈ main.cols) (hm2 : key ∈ lkp.cols) :
    executeVlookup main lkp cfg = .ok (pdMerge (coerceStrCol main key)
      (projectTable (coerceStrCol lkp key) ([key] ++
        (let returnCols := if cfg.columns_to_get ≠ [] then cfg.columns_to_get else cfg.return_columns
         let valid0 := returnCols.filter (fun c => c ∈ (coerceStrCol lkp key).cols ∧ c ≠ key)
         if valid0 = [] then (coerceStrCol lkp key).cols.filter
             (fun c => c ≠ key ∧ c ∉ (coerceStrCol main key).cols)
         else valid0)))
      [key] [key] "left") := by
  unfold executeVlookup
  rw [h1, h2, h3]
  simp only [pyOrStr, if_neg hk]
  rw [if_neg (by simpa using hm1), if_neg (by simpa using hm2)]
  rw [if_neg (by simp)]

theorem mergeRowMatch_single (l r : Table) (k1 k2 : String) (a b : List Value) :
    mergeRowMatch l r [k1] [k2] a b = decide (getCell r b k2 = getCell l a k1) := by
  simp only [mergeRowMatch, List.zip_cons_cons, List.zip_nil_right, List.all_cons, List.all_nil,
    Bool.and_true]
  exact decide_eq_decide.2 ⟨Eq.symm, Eq.symm⟩

/-- C4 counterexample: a main table of ONE row against a lookup whose key
column repeats the key twice: the vlookup output has TWO rows — the left
join duplicates the main row per matching lookup row, so the main
table's shape is not preserved. -/
theorem vlookup_duplicate_keys_counterexample :
    (executeVlookup ⟨["sku"], [[.num 1]]⟩ ⟨["sku", "name"], [[.num 1, .str "x"], [.num 1, .str "y"]]⟩
      { left_key := some "sku", right_key := some "sku", columns_to_get := ["name"] }).map
        (fun t => t.rows.length) = .ok 2 ∧
    (⟨["sku"], [[.num 1]]⟩ : Table).rows.length = 1 := by
  exact ⟨by decide, by decide⟩

/-- C4 amended: with the left and right key the same column name, a
uniform main table, and — the condition the counterexample shows to be
necessary — pairwise-distinct text-coerced lookup keys, the vlookup
output has exactly one row per main row, in main order: each output row
begins with the corresponding key-coerced main row, and on rows whose
coerced key matches no lookup key every looked-up cell is null. -/
theorem vlookup_shape_amended (main lkp : Table) (cfg : Config) (key : String)
    (h1 : cfg.left_key = some key) (h2 : cfg.lookup_key = none)
    (h3 : cfg.right_key = some key) (hk : key ≠ "")
    (hm1 : key ∈ main.cols) (hm2 : key ∈ lkp.cols)
    (humain : ∀ r ∈ main.rows, r.length = main.cols.length)
    (hulkp : ∀ r ∈ lkp.rows, r.length = lkp.cols.length)
    (huniq : ((colVals lkp key).map valueToStr).Nodup) :
    ∃ out, executeVlookup main lkp cfg = .ok out ∧
      out.rows.length = main.rows.length ∧
      (∀ i, i < main.rows.length →
        (out.rows.getD i []).take main.cols.length = (coerceStrCol main key).rows.getD i []) ∧
      (∀ i, i < main.rows.length →
        valueToStr (getCell main (main.rows.getD i []) key) ∉ (colVals lkp key).map valueToStr →
        ∀ v ∈ (out.rows.getD i []).drop main.cols.length, v = Value.null) := by
  obtain ⟨jm, hjm⟩ : ∃ j, main.colIdx key = some j := by
    rw [colIdx_eq_cols_findIdx]
    exact ⟨_, List.findIdx?_eq_some_of_exists ⟨key, hm1, by simp⟩⟩
  obtain ⟨jl, hjl⟩ : ∃ j, lkp.colIdx key = some j := by
    rw [colIdx_eq_cols_findIdx]
    exact ⟨_, List.findIdx?_eq_some_of_exists ⟨key, hm2, by simp⟩⟩
  refine ⟨_, executeVlookup_resolved main lkp cfg key h1 h2 h3 hk hm1 hm2, ?_⟩
  generalize (let returnCols := if cfg.columns_to_get ≠ [] then cfg.columns_to_get
                  else cfg.return_columns
              let valid0 := returnCols.filter
                  (fun c => c ∈ (coerceStrCol lkp key).cols ∧ c ≠ key)
              if valid0 = [] then (coerceStrCol lkp key).cols.filter
                  (fun c => c ≠ key ∧ c ∉ (coerceStrCol main key).cols)
              else valid0) = vs
  have hmcols : (coerceStrCol main key).cols = main.cols := coerceStrCol_cols hm1
  have hmshape := coerceStrCol_rows_shape hjm
  have hmlen : (coerceStrCol main key).rows.length = main.rows.length := hmshape.1
  have hmu : ∀ r ∈ (coerceStrCol main key).rows, r.length = main.cols.length :=
    hmshape.2 main.cols.length humain
  have hlshape := coerceStrCol_rows_shape hjl
  have hllen : (coerceStrCol lkp key).rows.length = lkp.rows.length := hlshape.1
  -- the slice's key column equals the coerced lookup key column
  have hkeymap : (projectTable (coerceStrCol lkp key) ([key] ++ vs)).rows.map
      (fun b => getCell (projectTable (coerceStrCol lkp key) ([key] ++ vs)) b key) =
      ((colVals lkp key).map valueToStr).map Value.str := by
    rw [show (projectTable (coerceStrCol lkp key) ([key] ++ vs)).rows =
        (coerceStrCol lkp key).rows.map
          (fun r => ([key] ++ vs).map (fun c => getCell (coerceStrCol lkp key) r c)) from rfl,
      List.map_map]
    have hstep : (coerceStrCol lkp key).rows.map
        ((fun b => getCell (projectTable (coerceStrCol lkp key) ([key] ++ vs)) b key) ∘
          (fun r => ([key] ++ vs).map (fun c => getCell (coerceStrCol lkp key) r c))) =
        (coerceStrCol lkp key).rows.map (fun r => getCell (coerceStrCol lkp key) r key) := by
      apply List.map_congr_left
      intro r _
      exact projectTable_getCell (coerceStrCol lkp key) ([key] ++ vs) r key (by simp)
    rw [hstep]
    apply List.ext_getElem?
    intro i
    by_cases hi : i < lkp.rows.length
    · have hb1 : i < (coerceStrCol lkp key).rows.length := by rw [hllen]; exact hi
      have hb2 : i < (colVals lkp key).length := by simp [colVals]; exact hi
      have h1' : (coerceStrCol lkp key).rows[i]? =
          some ((coerceStrCol lkp key).rows.getD i []) := by
        rw [List.getElem?_eq_getElem hb1, List.getD_eq_getElem _ _ hb1]
      have h2' : (colVals lkp key)[i]? = some ((colVals lkp key).getD i .null) := by
        rw [List.getElem?_eq_getElem hb2, List.getD_eq_getElem _ _ hb2]
      simp only [List.getElem?_map, h1', h2', Option.map_some']
      rw [coerceStrCol_cell hjl hulkp hi, colVals_getD lkp key hi]
    · have hb1 : (coerceStrCol lkp key).rows[i]? = none :=
        List.getElem?_eq_none (by rw [hllen]; omega)
      have hb2 : (colVals lkp key)[i]? = none :=
        List.getElem?_eq_none (by simp [colVals]; omega)
      simp only [List.getElem?_map, hb1, hb2, Option.map_none']
  have hnd : ((projectTable (coerceStrCol lkp key) ([key] ++ vs)).rows.map
      (fun b => getCell (projectTable (coerceStrCol lkp key) ([key] ++ vs)) b key)).Nodup := by
    rw [hkeymap]
    exact huniq.map (fun a b h => Value.str.inj h)
  -- the merged rows: one output row per main row
  have hrows : (pdMerge (coerceStrCol main key)
      (projectTable (coerceStrCol lkp key) ([key] ++ vs)) [key] [key] "left").rows =
      (coerceStrCol main key).rows.map (fun a =>
        let ms := (projectTable (coerceStrCol lkp key) ([key] ++ vs)).rows.filter
          (mergeRowMatch (coerceStrCol main key)
            (projectTable (coerceStrCol lkp key) ([key] ++ vs)) [key] [key] a)
        if ms = [] then a ++ (mergeRKeep (projectTable (coerceStrCol lkp key) ([key] ++ vs))
            [key] [key]).map (fun _ => Value.null)
        else a ++ mergeRightPart (projectTable (coerceStrCol lkp key) ([key] ++ vs))
            [key] [key] (ms.headD [])) := by
    rw [pdMerge_left_rows]
    apply flatMap_eq_map_of_singleton
    intro a _
    dsimp only
    by_cases hmem : getCell (coerceStrCol main key) a key ∈
        (projectTable (coerceStrCol lkp key) ([key] ++ vs)).rows.map
          (fun b => getCell (projectTable (coerceStrCol lkp key) ([key] ++ vs)) b key)
    · obtain ⟨b0, hb0, hkb0⟩ := List.mem_map.1 hmem
      have hfil : (projectTable (coerceStrCol lkp key) ([key] ++ vs)).rows.filter
          (mergeRowMatch (coerceStrCol main key)
            (projectTable (coerceStrCol lkp key) ([key] ++ vs)) [key] [key] a) = [b0] := by
        have hbase := filter_key_eq_self
          (fun b => getCell (projectTable (coerceStrCol lkp key) ([key] ++ vs)) b key)
          (projectTable (coerceStrCol lkp key) ([key] ++ vs)).rows hnd b0 hb0
        rw [← hbase]
        apply List.filter_congr
        intro b _
        dsimp only
        rw [mergeRowMatch_single, hkb0]
      rw [hfil]
      simp
    · have hfil : (projectTable (coerceStrCol lkp key) ([key] ++ vs)).rows.filter
          (mergeRowMatch (coerceStrCol main key)
            (projectTable (coerceStrCol lkp key) ([key] ++ vs)) [key] [key] a) = [] := by
        have hbase := filter_key_eq_nil
          (fun b => getCell (projectTable (coerceStrCol lkp key) ([key] ++ vs)) b key)
          (projectTable (coerceStrCol lkp key) ([key] ++ vs)).rows
          (getCell (coerceStrCol main key) a key) hmem
        rw [← hbase]
        apply List.filter_congr
        intro b _
        rw [mergeRowMatch_single]
      rw [hfil]
      simp
  refine ⟨?_, ?_, ?_⟩
  · rw [hrows, List.length_map, hmlen]
  · intro i hi
    have hx : (pdMerge (coerceStrCol main key)
        (projectTable (coerceStrCol lkp key) ([key] ++ vs)) [key] [key] "left").rows.getD i [] =
        ((coerceStrCol main key).rows.getD i []) ++
          (let a := (coerceStrCol main key).rows.getD i []
           let ms := (projectTable (coerceStrCol lkp key) ([key] ++ vs)).rows.filter
             (mergeRowMatch (coerceStrCol main key)
               (projectTable (coerceStrCol lkp key) ([key] ++ vs)) [key] [key] a)
           if ms = [] then (mergeRKeep (projectTable (coerceStrCol lkp key) ([key] ++ vs))
               [key] [key]).map (fun _ => Value.null)
           else mergeRightPart (projectTable (coerceStrCol lkp key) ([key] ++ vs))
               [key] [key] (ms.headD [])) := by
      rw [hrows]
      apply getD_eq_of_getElem?
      rw [List.getElem?_map, List.getElem?_eq_some.2 ⟨by rw [hmlen]; exact hi, rfl⟩,
        Option.map_some']
      dsimp only
      rw [getD_eq_of_getElem? [] (List.getElem?_eq_some.2 ⟨by rw [hmlen]; exact hi, rfl⟩)]
      split <;> rfl
    rw [hx]
    apply List.take_left'
    exact hmu _ (getD_mem_of_lt [] (by rw [hmlen]; exact hi))
  · intro i hi hnomatch
    have hka : getCell (coerceStrCol main key) ((coerceStrCol main key).rows.getD i []) key =
        .str (valueToStr (getCell main (main.rows.getD i []) key)) :=
      coerceStrCol_cell hjm humain hi
    have hnm : getCell (coerceStrCol main key) ((coerceStrCol main key).rows.getD i []) key ∉
        (projectTable (coerceStrCol lkp key) ([key] ++ vs)).rows.map
          (fun b => getCell (projectTable (coerceStrCol lkp key) ([key] ++ vs)) b key) := by
      rw [hka, hkeymap]
      intro hmem
      obtain ⟨s, hs, he⟩ := List.mem_map.1 hmem
      exact hnomatch ((Value.str.inj he) ▸ hs)
    have hfil : (projectTable (coerceStrCol lkp key) ([key] ++ vs)).rows.filter
        (mergeRowMatch (coerceStrCol main key)
          (projectTable (coerceStrCol lkp key) ([key] ++ vs)) [key] [key]
          ((coerceStrCol main key).rows.getD i [])) = [] := by
      have hbase := filter_key_eq_nil
        (fun b => getCell (projectTable (coerceStrCol lkp key) ([key] ++ vs)) b key)
        (projectTable (coerceStrCol lkp key) ([key] ++ vs)).rows
        (getCell (coerceStrCol main key) ((coerceStrCol main key).rows.getD i []) key) hnm
      rw [← hbase]
      apply List.filter_congr
      intro b _
      rw [mergeRowMatch_single]
    have hx : (pdMerge (coerceStrCol main key)
        (projectTable (coerceStrCol lkp key) ([key] ++ vs)) [key] [key] "left").rows.getD i [] =
        ((coerceStrCol main key).rows.getD i []) ++
          (mergeRKeep (projectTable (coerceStrCol lkp key) ([key] ++ vs))
            [key] [key]).map (fun _ => Value.null) := by
      rw [hrows]
      apply getD_eq_of_getElem?
      rw [List.getElem?_map, List.getElem?_eq_some.2 ⟨by rw [hmlen]; exact hi, rfl⟩,
        Option.map_some']
      dsimp only
      rw [getD_eq_of_getElem? [] (List.getElem?_eq_some.2 ⟨by rw [hmlen]; exact hi, rfl⟩)]
      rw [getD_eq_of_getElem? [] (List.getElem?_eq_some.2 ⟨by rw [hmlen]; exact hi, rfl⟩)] at hfil
      rw [hfil]
      rfl
    rw [hx, List.drop_left' (hmu _ (getD_mem_of_lt [] (by rw [hmlen]; exact hi)))]
    intro v hv
    obtain ⟨_, _, he⟩ := List.mem_map.1 hv
    exact he.symm

/-- C4 witness: the amended vlookup theorem instantiated at a concrete
two-row main table and a one-row lookup table with distinct coerced keys. -/
theorem vlookup_shape_amended_witness :
    ∃ out, executeVlookup ⟨["sku", "qty"], [[.str "a", .num 1], [.str "b", .num 2]]⟩
        ⟨["sku", "name"], [[.str "a", .str "x"]]⟩
        { left_key := some "sku", right_key := some "sku", columns_to_get := ["name"] } = .ok out ∧
      out.rows.length = (⟨["sku", "qty"], [[.str "a", .num 1], [.str "b", .num 2]]⟩ : Table).rows.length ∧
      (∀ i, i < (⟨["sku", "qty"], [[.str "a", .num 1], [.str "b", .num 2]]⟩ : Table).rows.length →
        (out.rows.getD i []).take (⟨["sku", "qty"], [[.str "a", .num 1], [.str "b", .num 2]]⟩ : Table).cols.length =
          (coerceStrCol ⟨["sku", "qty"], [[.str "a", .num 1], [.str "b", .num 2]]⟩ "sku").rows.getD i []) ∧
      (∀ i, i < (⟨["sku", "qty"], [[.str "a", .num 1], [.str "b", .num 2]]⟩ : Table).rows.length →
        valueToStr (getCell ⟨["sku", "qty"], [[.str "a", .num 1], [.str "b", .num 2]]⟩
            ((⟨["sku", "qty"], [[.str "a", .num 1], [.str "b", .num 2]]⟩ : Table).rows.getD i []) "sku") ∉
          (colVals ⟨["sku", "name"], [[.str "a", .str "x"]]⟩ "sku").map valueToStr →
        ∀ v ∈ (out.rows.getD i []).drop (⟨["sku", "qty"], [[.str "a", .num 1], [.str "b", .num 2]]⟩ : Table).cols.length,
          v = Value.null) :=
  vlookup_shape_amended ⟨["sku", "qty"], [[.str "a", .num 1], [.str "b", .num 2]]⟩
    ⟨["sku", "name"], [[.str "a", .str "x"]]⟩
    { left_key := some "sku", right_key := some "sku", columns_to_get := ["name"] } "sku"
    rfl rfl rfl (by decide) (by decide) (by decide) (by decide) (by decide) (by decide)

theorem getD_append_len {α : Type} (l1 l2 : List α) (i : Nat) (d : α) :
    (l1 ++ l2).getD (l1.length + i) d = l2.getD i d := by
  rw [List.getD_eq_getElem?_getD, List.getD_eq_getElem?_getD,
    List.getElem?_append_right (by omega)]
  simp

theorem getD_append_lt {α : Type} (l1 l2 : List α) (i : Nat) (d : α) (h : i < l1.length) :
    (l1 ++ l2).getD i d = l1.getD i d := by
  rw [List.getD_eq_getElem?_getD, List.getD_eq_getElem?_getD, List.getElem?_append_left h]

theorem getD_append_at {α : Type} (l1 l2 : List α) {n : Nat} (h : l1.length = n) (i : Nat)
    (d : α) : (l1 ++ l2).getD (n + i) d = l2.getD i d := by
  subst h
  exact getD_append_len l1 l2 i d

theorem getD_append_at0 {α : Type} (l1 l2 : List α) {n : Nat} (h : l1.length = n) (d : α) :
    (l1 ++ l2).getD n d = l2.getD 0 d := by
  subst h
  have := getD_append_len l1 l2 0 d
  simpa using this

theorem colIdx_of_mem {t : Table} {c : String} (h : c ∈ t.cols) :
    ∃ j, t.colIdx c = some j := by
  rw [colIdx_eq_cols_findIdx]
  exact ⟨_, List.findIdx?_eq_some_of_exists ⟨c, h, by simp⟩⟩

theorem findIdx?_eq_none_of_not_mem {l : List String} {c : String} (h : c ∉ l) :
    l.findIdx? (· = c) = none :=
  List.findIdx?_eq_none_iff.2 (fun x hx => by
    simp only [decide_eq_false_iff_not]
    exact fun he => h (he ▸ hx))

theorem mergeCollapsed_self (ks : List String) : mergeCollapsed ks ks = ks := by
  unfold mergeCollapsed
  induction ks with
  | nil => rfl
  | cons x l ih => simpa using ih

theorem groupKeysList_length (t : Table) (ks : List String) :
    ∀ kk ∈ groupKeysList t ks, kk.length = ks.length := by
  unfold groupKeysList
  have aux : ∀ (rows : List (List Value)) (acc : List (List Value)),
      (∀ kk ∈ acc, kk.length = ks.length) →
      ∀ kk ∈ rows.foldl (fun acc r =>
        let k := ks.map (getCell t r)
        if Value.null ∈ k then acc
        else if k ∈ acc then acc else acc ++ [k]) acc, kk.length = ks.length := by
    intro rows
    induction rows with
    | nil => intro acc h kk hkk; exact h kk hkk
    | cons r rs ih =>
        intro acc h kk hkk
        rw [List.foldl_cons] at hkk
        refine ih _ ?_ kk hkk
        intro kk' hkk'
        dsimp only at hkk'
        by_cases hnull : Value.null ∈ ks.map (getCell t r)
        · rw [if_pos hnull] at hkk'
          exact h kk' hkk'
        · rw [if_neg hnull] at hkk'
          by_cases hin : ks.map (getCell t r) ∈ acc
          · rw [if_pos hin] at hkk'
            exact h kk' hkk'
          · rw [if_neg hin] at hkk'
            rcases List.mem_append.1 hkk' with h1 | h1
            · exact h kk' h1
            · rw [List.mem_singleton.1 h1]; simp
  exact aux t.rows [] (by intro kk hkk; cases hkk)

theorem coerceKeys_cols : ∀ (ks : List String) (t : Table), (∀ c ∈ ks, c ∈ t.cols) →
    (coerceKeys t ks).cols = t.cols := by
  intro ks
  induction ks with
  | nil => intro t _; rfl
  | cons x l ih =>
      intro t h
      have hx : x ∈ t.cols := h x (by simp)
      have hcc : (coerceStrCol t x).cols = t.cols := coerceStrCol_cols hx
      show (coerceKeys (coerceStrCol t x) l).cols = t.cols
      rw [ih (coerceStrCol t x) (fun c hc => by rw [hcc]; exact h c (by simp [hc])), hcc]

theorem coerceKeys_rows_shape : ∀ (ks : List String) (t : Table),
    (∀ c ∈ ks, c ∈ t.cols) →
    ∀ L, (∀ r ∈ t.rows, r.length = L) → ∀ r ∈ (coerceKeys t ks).rows, r.length = L := by
  intro ks
  induction ks with
  | nil => intro t _ L h r hr; exact h r hr
  | cons x l ih =>
      intro t h L hL r hr
      have hx : x ∈ t.cols := h x (by simp)
      have hcc : (coerceStrCol t x).cols = t.cols := coerceStrCol_cols hx
      obtain ⟨j, hj⟩ := colIdx_of_mem hx
      refine ih (coerceStrCol t x) (fun c hc => by rw [hcc]; exact h c (by simp [hc])) L
        ((coerceStrCol_rows_shape hj).2 L hL) r hr

theorem getCell_cols_left {t : Table} {pre tl : List String} {c : String} {i : Nat}
    (hcols : t.cols = pre ++ tl) (hfind : pre.findIdx? (· = c) = some i) (r : List Value) :
    getCell t r c = r.getD i .null := by
  unfold getCell Table.colIdx
  rw [hcols, findIdx?_append_of_some hfind]

theorem getCell_cols_skip {t : Table} {pre tl : List String} {c : String} {i : Nat}
    (hcols : t.cols = pre ++ tl) (hc : c ∉ pre) (hfind : tl.findIdx? (· = c) = some i)
    (r : List Value) :
    getCell t r c = r.getD (i + pre.length) .null := by
  unfold getCell Table.colIdx
  rw [hcols, findIdx?_append_of_none (findIdx?_eq_none_of_not_mem hc), hfind]
  rfl

theorem reconcileRow_eq {k : Nat} {tol : Int} {r r' : List Value}
    (h : reconcileRow k tol r = some r') :
    ∃ d s : Int, asNum (fill0 (r.getD k .null)) = some d ∧
      asNum (fill0 (r.getD (k + 1) .null)) = some s ∧
      r' = r.take k ++ [.num d, .num s, .num (d - s), .num |d - s|,
        .str (if |d - s| ≤ tol then "✅ 一致" else "❌ 不一致")] := by
  unfold reconcileRow at h
  cases hd : asNum (fill0 (r.getD k .null)) with
  | none => rw [hd] at h; cases h
  | some d =>
      rw [hd] at h
      cases hs : asNum (fill0 (r.getD (k + 1) .null)) with
      | none => rw [hs] at h; cases h
      | some s =>
          rw [hs] at h
          exact ⟨d, s, rfl, rfl, (Option.some.inj h).symm⟩

theorem zip_self_mem {α : Type} {l : List α} {c : α} (h : c ∈ l) : (c, c) ∈ l.zip l := by
  induction l with
  | nil => cases h
  | cons x xs ih =>
      rcases List.mem_cons.1 h with h1 | h1
      · rw [h1]; exact List.mem_cons_self _ _
      · exact List.mem_cons_of_mem _ (ih h1)

theorem mem_zip_self {α : Type} {l : List α} {p : α × α} (h : p ∈ l.zip l) :
    p.1 = p.2 ∧ p.1 ∈ l := by
  induction l with
  | nil => cases h
  | cons x xs ih =>
      rcases List.mem_cons.1 h with h1 | h1
      · rw [h1]; exact ⟨rfl, List.mem_cons_self _ _⟩
      · exact ⟨(ih h1).1, List.mem_cons_of_mem _ (ih h1).2⟩

/-- reconcileResolved reduces a successful `executeReconcile` run to its
merged table, per-row verdict computation and diff-only filter. -/
theorem executeReconcile_resolved (detail summary : Table) (cfg : Config) (ks : List String)
    (lc rc : String) (out : Table)
    (hks : pyOrList cfg.join_keys cfg.detail_key = some ks)
    (hlc : pyOrStr cfg.left_column cfg.detail_amount = some lc)
    (hrc : pyOrStr cfg.right_column cfg.summary_amount = some rc)
    (hrun : executeReconcile detail summary cfg = .ok out) :
    ∃ rows',
      (pdMerge (coerceKeys (reconcileGroup detail ks lc) ks)
          (coerceKeys (renameColTable (projectTable summary (ks ++ [rc])) rc "汇总表金额") ks)
          ks ks "outer").rows.mapM (reconcileRow ks.length cfg.tolerance) = some rows' ∧
      out = dropColTable
        (if cfg.output_mode = "diff_only" then
          { cols := (pdMerge (coerceKeys (reconcileGroup detail ks lc) ks)
                (coerceKeys (renameColTable (projectTable summary (ks ++ [rc])) rc "汇总表金额") ks)
                ks ks "outer").cols ++ ["差额", "差额绝对值", "核算结果"],
            rows := rows'.filter (fun r =>
              match r.getD (ks.length + 3) .null with
              | .num a => a > cfg.tolerance
              | _ => false) }
        else
          { cols := (pdMerge (coerceKeys (reconcileGroup detail ks lc) ks)
                (coerceKeys (renameColTable (projectTable summary (ks ++ [rc])) rc "汇总表金额") ks)
                ks ks "outer").cols ++ ["差额", "差额绝对值", "核算结果"],
            rows := rows' })
        "差额绝对值" := by
  unfold executeReconcile at hrun
  rw [hks] at hrun
  dsimp only at hrun
  rw [hlc] at hrun
  dsimp only at hrun
  rw [hrc] at hrun
  dsimp only at hrun
  split at hrun
  · exact Except.noConfusion hrun
  split at hrun
  · exact Except.noConfusion hrun
  split at hrun
  · exact Except.noConfusion hrun
  split at hrun
  · exact Except.noConfusion hrun
  split at hrun
  · exact Except.noConfusion hrun
  rename_i rows' hX
  exact ⟨rows', hX, (Except.ok.inj hrun).symm⟩

/-- C3: with resolvable config and join keys distinct from the reconcile
column names, every row of the reconcile output carries the 0-filled
detail and summary totals, their difference, and the verdict `✅ 一致`
exactly when the absolute difference is within the tolerance — and in
`diff_only` mode every kept row exceeds it; moreover when the coerced
grouped detail rows are a permutation of (equal as multisets to) the
coerced summary rows — the grouped sums equal the summary amounts
exactly, in any row order — and the coerced key tuples are distinct, the
`diff_only` output has zero rows. -/
theorem reconcile_verdicts_and_identity (detail summary : Table) (cfg : Config)
    (ks : List String) (lc rc : String) (out : Table)
    (hks : pyOrList cfg.join_keys cfg.detail_key = some ks)
    (hlc : pyOrStr cfg.left_column cfg.detail_amount = some lc)
    (hrc : pyOrStr cfg.right_column cfg.summary_amount = some rc)
    (hrcks : rc ∉ ks)
    (hn1 : "明细汇总金额" ∉ ks) (hn2 : "汇总表金额" ∉ ks) (hn3 : "差额" ∉ ks)
    (hn5 : "核算结果" ∉ ks)
    (hrun : executeReconcile detail summary cfg = .ok out) :
    (∀ row ∈ out.rows, ∃ d s : Int,
      getCell out row "明细汇总金额" = .num d ∧
      getCell out row "汇总表金额" = .num s ∧
      getCell out row "差额" = .num (d - s) ∧
      getCell out row "核算结果" =
        .str (if |d - s| ≤ cfg.tolerance then "✅ 一致" else "❌ 不一致") ∧
      (cfg.output_mode = "diff_only" → cfg.tolerance < |d - s|)) ∧
    (cfg.output_mode = "diff_only" → 0 ≤ cfg.tolerance →
      List.Perm (coerceKeys (reconcileGroup detail ks lc) ks).rows
        (coerceKeys (renameColTable (projectTable summary (ks ++ [rc])) rc "汇总表金额") ks).rows →
      ((coerceKeys (reconcileGroup detail ks lc) ks).rows.map
        (fun a => ks.map (fun c => getCell (coerceKeys (reconcileGroup detail ks lc) ks) a c))).Nodup →
      out.rows = []) := by
  obtain ⟨rows', hmm, hout⟩ :=
    executeReconcile_resolved detail summary cfg ks lc rc out hks hlc hrc hrun
  subst hout
  set dg := coerceKeys (reconcileGroup detail ks lc) ks with hdgdef
  set sr := coerceKeys (renameColTable (projectTable summary (ks ++ [rc])) rc "汇总表金额") ks
    with hsrdef
  set merged := pdMerge dg sr ks ks "outer" with hmergeddef
  have hdgcols : dg.cols = ks ++ ["明细汇总金额"] := by
    rw [hdgdef]
    exact coerceKeys_cols ks (reconcileGroup detail ks lc) (fun c hc => List.mem_append_left _ hc)
  have hsr0cols : (renameColTable (projectTable summary (ks ++ [rc])) rc "汇总表金额").cols =
      ks ++ ["汇总表金额"] := by
    show ((ks ++ [rc]).map (fun c => if c = rc then "汇总表金额" else c)) = ks ++ ["汇总表金额"]
    have h1 : ks.map (fun c => if c = rc then "汇总表金额" else c) = ks.map id :=
      List.map_congr_left (fun c hc => if_neg (fun (he : c = rc) => hrcks (he ▸ hc)))
    have h2 : [rc].map (fun c => if c = rc then "汇总表金额" else c) = ["汇总表金额"] := by simp
    rw [List.map_append, h1, List.map_id, h2]
  have hsrcols : sr.cols = ks ++ ["汇总表金额"] := by
    rw [hsrdef, coerceKeys_cols ks _
      (fun c hc => by rw [hsr0cols]; exact List.mem_append_left _ hc), hsr0cols]
  have hrkeep : mergeRKeep sr ks ks = ["汇总表金额"] := by
    unfold mergeRKeep
    rw [mergeCollapsed_self, hsrcols, List.filter_append]
    have h1 : ks.filter (fun c => decide (c ∉ ks)) = [] :=
      List.filter_eq_nil_iff.2 (fun c hc => by simp [hc])
    have h2 : (["汇总表金额"] : List String).filter (fun c => decide (c ∉ ks)) = ["汇总表金额"] := by
      simp [hn2]
    rw [h1, h2]
    rfl
  have hmergedcols : merged.cols = ks ++ ["明细汇总金额", "汇总表金额"] := by
    rw [hmergeddef, pdMerge_cols]
    have hov : dg.cols.filter (fun c => decide (c ∈ mergeRKeep sr ks ks)) = [] := by
      rw [hrkeep, hdgcols]
      apply List.filter_eq_nil_iff.2
      intro c hc
      simp only [decide_eq_true_eq, List.mem_singleton]
      rcases List.mem_append.1 hc with h1 | h1
      · exact fun he => hn2 (he ▸ h1)
      · rw [List.mem_singleton.1 h1]; decide
    rw [hov]
    simp [hrkeep, hdgcols]
  have hdgrows : ∀ a ∈ dg.rows, a.length = ks.length + 1 := by
    rw [hdgdef]
    refine coerceKeys_rows_shape ks (reconcileGroup detail ks lc)
      (fun c hc => List.mem_append_left _ hc) (ks.length + 1) ?_
    intro r hr
    replace hr : r ∈ (groupKeysList detail ks).map (fun k =>
      k ++ [Value.num (sumNums ((groupRows detail ks k).map (fun r => getCell detail r lc)))]) := hr
    obtain ⟨kk, hkk, rfl⟩ := List.mem_map.1 hr
    simp [groupKeysList_length detail ks kk hkk]
  have hsrrows : ∀ b ∈ sr.rows, b.length = ks.length + 1 := by
    rw [hsrdef]
    refine coerceKeys_rows_shape ks _
      (fun c hc => by rw [hsr0cols]; exact List.mem_append_left _ hc) (ks.length + 1) ?_
    intro b hb
    replace hb : b ∈ summary.rows.map (fun r => (ks ++ [rc]).map (fun c => getCell summary r c)) := hb
    obtain ⟨r0, _, rfl⟩ := List.mem_map.1 hb
    simp
  have hmergedrows : ∀ r ∈ merged.rows, r.length = ks.length + 2 := by
    intro r hr
    rw [hmergeddef, pdMerge_outer_rows] at hr
    rcases List.mem_append.1 hr with h1 | h1
    · obtain ⟨a, ha, hra⟩ := List.mem_flatMap.1 h1
      dsimp only at hra
      by_cases hms : sr.rows.filter (mergeRowMatch dg sr ks ks a) = []
      · rw [if_pos hms] at hra
        rw [List.mem_singleton.1 hra, List.length_append, hdgrows a ha, List.length_map, hrkeep]
        rfl
      · rw [if_neg hms] at hra
        obtain ⟨b, hb, rfl⟩ := List.mem_map.1 hra
        rw [List.length_append, hdgrows a ha]
        unfold mergeRightPart
        rw [List.length_map, hrkeep]
        rfl
    · obtain ⟨b, hb, rfl⟩ := List.mem_map.1 h1
      unfold mergeRightOnlyRow mergeRightPart
      rw [List.length_append, List.length_map, List.length_map, hrkeep, hdgcols,
        List.length_append]
      rfl
  have f0 : (["明细汇总金额", "汇总表金额", "差额", "差额绝对值", "核算结果"] : List String).findIdx?
      (· = "明细汇总金额") = some 0 := by decide
  have f1 : (["明细汇总金额", "汇总表金额", "差额", "差额绝对值", "核算结果"] : List String).findIdx?
      (· = "汇总表金额") = some 1 := by decide
  have f2 : (["明细汇总金额", "汇总表金额", "差额", "差额绝对值", "核算结果"] : List String).findIdx?
      (· = "差额") = some 2 := by decide
  have f4 : (["明细汇总金额", "汇总表金额", "差额", "差额绝对值", "核算结果"] : List String).findIdx?
      (· = "核算结果") = some 4 := by decide
  have fsr : (["汇总表金额"] : List String).findIdx? (· = "汇总表金额") = some 0 := by decide
  have main1 : ∀ (T : Table), T.cols = merged.cols ++ ["差额", "差额绝对值", "核算结果"] →
      (∀ x ∈ T.rows, x ∈ rows') →
      (cfg.output_mode = "diff_only" → ∀ x ∈ T.rows, ∃ a : Int,
        x.getD (ks.length + 3) .null = Value.num a ∧ cfg.tolerance < a) →
      ∀ row ∈ (dropColTable T "差额绝对值").rows, ∃ d s : Int,
        getCell (dropColTable T "差额绝对值") row "明细汇总金额" = .num d ∧
        getCell (dropColTable T "差额绝对值") row "汇总表金额" = .num s ∧
        getCell (dropColTable T "差额绝对值") row "差额" = .num (d - s) ∧
        getCell (dropColTable T "差额绝对值") row "核算结果" =
          .str (if |d - s| ≤ cfg.tolerance then "✅ 一致" else "❌ 不一致") ∧
        (cfg.output_mode = "diff_only" → cfg.tolerance < |d - s|) := by
    intro T hTc hTsub hTfil
    have hTfull : T.cols = ks ++ ["明细汇总金额", "汇总表金额", "差额", "差额绝对值", "核算结果"] := by
      rw [hTc, hmergedcols, List.append_assoc]
      rfl
    unfold dropColTable
    intro row hrow
    replace hrow : row ∈ T.rows.map (fun r =>
      (T.cols.filter (fun c => c ≠ "差额绝对值")).map (fun c => getCell T r c)) := hrow
    obtain ⟨r', hr'T, hroweq⟩ := List.mem_map.1 hrow
    have hr'sub := hTsub r' hr'T
    obtain ⟨r, hrm, hrr⟩ := mapM_option_mem _ _ _ hmm r' hr'sub
    have hrlen := hmergedrows r hrm
    obtain ⟨d, s, hdv, hsv, hr'eq⟩ := reconcileRow_eq hrr
    have htk : (r.take ks.length).length = ks.length := by rw [List.length_take]; omega
    have g0 : getCell T r' "明细汇总金额" = Value.num d := by
      rw [getCell_cols_skip hTfull hn1 f0 r', Nat.zero_add, hr'eq, getD_append_at0 _ _ htk]
      rfl
    have g1 : getCell T r' "汇总表金额" = Value.num s := by
      rw [getCell_cols_skip hTfull hn2 f1 r', Nat.add_comm 1 ks.length, hr'eq,
        getD_append_at _ _ htk 1]
      rfl
    have g2 : getCell T r' "差额" = Value.num (d - s) := by
      rw [getCell_cols_skip hTfull hn3 f2 r', Nat.add_comm 2 ks.length, hr'eq,
        getD_append_at _ _ htk 2]
      rfl
    have g4 : getCell T r' "核算结果" =
        .str (if |d - s| ≤ cfg.tolerance then "✅ 一致" else "❌ 不一致") := by
      rw [getCell_cols_skip hTfull hn5 f4 r', Nat.add_comm 4 ks.length, hr'eq,
        getD_append_at _ _ htk 4]
      rfl
    have hq0 : "明细汇总金额" ∈ T.cols.filter (fun c => c ≠ "差额绝对值") :=
      List.mem_filter.2 ⟨by rw [hTfull]; exact List.mem_append_right _ (by decide), by decide⟩
    have hq1 : "汇总表金额" ∈ T.cols.filter (fun c => c ≠ "差额绝对值") :=
      List.mem_filter.2 ⟨by rw [hTfull]; exact List.mem_append_right _ (by decide), by decide⟩
    have hq2 : "差额" ∈ T.cols.filter (fun c => c ≠ "差额绝对值") :=
      List.mem_filter.2 ⟨by rw [hTfull]; exact List.mem_append_right _ (by decide), by decide⟩
    have hq4 : "核算结果" ∈ T.cols.filter (fun c => c ≠ "差额绝对值") :=
      List.mem_filter.2 ⟨by rw [hTfull]; exact List.mem_append_right _ (by decide), by decide⟩
    refine ⟨d, s, ?_, ?_, ?_, ?_, ?_⟩
    · rw [← hroweq, projectTable_getCell T _ r' _ hq0]
      exact g0
    · rw [← hroweq, projectTable_getCell T _ r' _ hq1]
      exact g1
    · rw [← hroweq, projectTable_getCell T _ r' _ hq2]
      exact g2
    · rw [← hroweq, projectTable_getCell T _ r' _ hq4]
      exact g4
    · intro hdo
      obtain ⟨a, he3, hlt⟩ := hTfil hdo r' hr'T
      have e3 : r'.getD (ks.length + 3) .null = Value.num |d - s| := by
        rw [hr'eq, getD_append_at _ _ htk 3]
        rfl
      rw [e3] at he3
      have := Value.num.inj he3
      omega
  refine ⟨?_, ?_⟩
  · by_cases hdo : cfg.output_mode = "diff_only"
    · rw [if_pos hdo]
      refine main1 _ rfl ?_ ?_
      · intro x hx
        exact (List.mem_filter.1 hx).1
      · intro _ x hx
        have hp := (List.mem_filter.1 hx).2
        cases hv : x.getD (ks.length + 3) .null with
        | num a =>
            rw [hv] at hp
            exact ⟨a, rfl, of_decide_eq_true hp⟩
        | str s0 => rw [hv] at hp; cases hp
        | bool b0 => rw [hv] at hp; cases hp
        | null => rw [hv] at hp; cases hp
    · rw [if_neg hdo]
      exact main1 _ rfl (fun x hx => hx) (fun h => absurd h hdo)
  · intro hdo htol heq hnd
    rw [if_pos hdo]
    unfold dropColTable projectTable
    dsimp only
    rw [List.map_eq_nil_iff, List.filter_eq_nil_iff]
    intro r' hr'
    obtain ⟨r, hrm, hrr⟩ := mapM_option_mem _ _ _ hmm r' hr'
    have hmatch_self : ∀ x ∈ dg.rows, mergeRowMatch dg sr ks ks x x = true := by
      intro x _
      unfold mergeRowMatch
      apply List.all_eq_true.2
      intro p hp
      obtain ⟨hpe, hpm⟩ := mem_zip_self hp
      obtain ⟨i, hi⟩ : ∃ i, ks.findIdx? (· = p.1) = some i :=
        ⟨_, List.findIdx?_eq_some_of_exists ⟨p.1, hpm, by simp⟩⟩
      rw [← hpe, getCell_cols_left hdgcols hi x, getCell_cols_left hsrcols hi x]
      exact decide_eq_true rfl
    obtain ⟨a, ha, hreq⟩ : ∃ a ∈ dg.rows, r = a ++ [a.getD ks.length .null] := by
      rw [hmergeddef, pdMerge_outer_rows] at hrm
      rcases List.mem_append.1 hrm with h1 | h1
      · obtain ⟨a, ha, hra⟩ := List.mem_flatMap.1 h1
        dsimp only at hra
        have hself : a ∈ sr.rows.filter (mergeRowMatch dg sr ks ks a) :=
          List.mem_filter.2 ⟨heq.mem_iff.1 ha, hmatch_self a ha⟩
        have hmsne : sr.rows.filter (mergeRowMatch dg sr ks ks a) ≠ [] := by
          intro hh
          rw [hh] at hself
          exact List.not_mem_nil a hself
        rw [if_neg hmsne] at hra
        obtain ⟨b, hbms, rfl⟩ := List.mem_map.1 hra
        have hbf := List.mem_filter.1 hbms
        have hkeys : ks.map (fun c => getCell dg a c) = ks.map (fun c => getCell dg b c) := by
          refine List.map_congr_left ?_
          intro c hc
          obtain ⟨i, hi⟩ : ∃ i, ks.findIdx? (· = c) = some i :=
            ⟨_, List.findIdx?_eq_some_of_exists ⟨c, hc, by simp⟩⟩
          have hm := hbf.2
          unfold mergeRowMatch at hm
          have hcc : getCell dg a c = getCell sr b c :=
            of_decide_eq_true (List.all_eq_true.1 hm (c, c) (zip_self_mem hc))
          rw [getCell_cols_left hdgcols hi b, ← getCell_cols_left hsrcols hi b]
          exact hcc
        have hba : b = a :=
          (List.inj_on_of_nodup_map hnd ha (heq.mem_iff.2 hbf.1) hkeys).symm
        refine ⟨a, ha, ?_⟩
        rw [hba]
        unfold mergeRightPart
        rw [hrkeep]
        simp only [List.map_cons, List.map_nil]
        rw [getCell_cols_skip hsrcols hn2 fsr a, Nat.zero_add]
      · exfalso
        obtain ⟨b, hbf, hbeq⟩ := List.mem_map.1 h1
        have hb1 := (List.mem_filter.1 hbf).1
        have hb2 := (List.mem_filter.1 hbf).2
        have hany : dg.rows.any (fun x => mergeRowMatch dg sr ks ks x b) = true :=
          List.any_eq_true.2 ⟨b, heq.mem_iff.2 hb1, hmatch_self b (heq.mem_iff.2 hb1)⟩
        exact of_decide_eq_true hb2 hany
    obtain ⟨d, s, hdv, hsv, hr'eq⟩ := reconcileRow_eq hrr
    have halen : a.length = ks.length + 1 := hdgrows a ha
    have hds : d = s := by
      rw [hreq, getD_append_lt _ _ _ _ (by omega)] at hdv
      rw [hreq, getD_append_at0 _ _ halen] at hsv
      have hsv' : asNum (fill0 (a.getD ks.length .null)) = some s := hsv
      exact Option.some.inj (hdv.symm.trans hsv')
    have hrlen : r.length = ks.length + 2 := hmergedrows r hrm
    have htk : (r.take ks.length).length = ks.length := by rw [List.length_take]; omega
    have e3 : r'.getD (ks.length + 3) .null = Value.num 0 := by
      rw [hr'eq, getD_append_at _ _ htk 3]
      show Value.num |d - s| = Value.num 0
      rw [hds, sub_self, abs_zero]
    intro hp
    rw [e3] at hp
    have h0 : ((0:Int) > cfg.tolerance) := of_decide_eq_true hp
    omega

/-- C3 witness: a concrete detail/summary pair whose grouped sums agree
exactly — the summary listing its rows in the opposite order of the
grouped detail — still reconciles: the run succeeds and the diff-only
output has zero rows, by the identity half of the reconcile theorem. -/
theorem reconcile_verdicts_and_identity_witness :
    executeReconcile
        ⟨["k", "amt"], [[.str "a", .num 5], [.str "a", .num 3], [.str "b", .num 2]]⟩
        ⟨["k", "samt"], [[.str "b", .num 2], [.str "a", .num 8]]⟩
        { join_keys := some ["k"], left_column := some "amt", right_column := some "samt",
          tolerance := 0 } =
      .ok ⟨["k", "明细汇总金额", "汇总表金额", "差额", "核算结果"], []⟩ ∧
    (⟨["k", "明细汇总金额", "汇总表金额", "差额", "核算结果"],
      ([] : List (List Value))⟩ : Table).rows = [] := by
  refine ⟨by decide, ?_⟩
  exact (reconcile_verdicts_and_identity
    ⟨["k", "amt"], [[.str "a", .num 5], [.str "a", .num 3], [.str "b", .num 2]]⟩
    ⟨["k", "samt"], [[.str "b", .num 2], [.str "a", .num 8]]⟩
    { join_keys := some ["k"], left_column := some "amt", right_column := some "samt",
      tolerance := 0 }
    ["k"] "amt" "samt"
    ⟨["k", "明细汇总金额", "汇总表金额", "差额", "核算结果"], []⟩
    rfl rfl rfl (by decide) (by decide) (by decide) (by decide) (by decide)
    (by decide)).2 rfl (by decide) (by decide) (by decide)

/-- reconcileNullKey checks the `dropna` corner concretely: a null join
key is dropped by the detail-side `groupby` but survives the summary
side, so even an exactly-matching summary amount emerges as a right-only
mismatch row (detail total filled to 0) in the diff-only output. -/
theorem reconcile_null_key_group_dropped :
    executeReconcile ⟨["k", "amt"], [[.null, .num 5]]⟩ ⟨["k", "samt"], [[.null, .num 5]]⟩
      { join_keys := some ["k"], left_column := some "amt", right_column := some "samt",
        tolerance := 0 } =
      .ok ⟨["k", "明细汇总金额", "汇总表金额", "差额", "核算结果"],
        [[.str "nan", .num 0, .num 5, .num (-5), .str "❌ 不一致"]]⟩ := by decide
